import Mathlib

/-! # Transcript processing and search pipeline: a shallow embedding

This file embeds the core of the yt-downloader transcript subsystem in Lean:
the text normalizer and chapter detector (transcript_processor.py), the
content-quality analyzer (metadata_collector.py), the artifact store
(db_utils.py, models.py) and the search engine (search_utils.py), and proves
or refutes the specification claims about them.

Modelling conventions:
* Python `str` is modelled as `List Char` where character-level scanning
  matters (regex passes, substring counting, windows) and as `String` for
  opaque stored fields.  Python indexing/len are code-point based, matching
  `List Char`.
* Python floats are modelled as rationals `ℚ` (exact arithmetic; all the
  verified control flow compares and subtracts small decimal values).
* `.lower()` is modelled with `Char.toLower` (ASCII case mapping).
* Fallible Python code is modelled with `Except PyErr`; an uncaught Python
  exception is `.error`.
* Regex scanners are modelled as left-to-right matchers with a fuel
  parameter equal to the input length, mirroring `re.sub` semantics:
  leftmost non-overlapping matches, scanning resumes after each match,
  with `\b` judged against the original string (tracked as a flag carrying
  whether the previously consumed character is a word character).
-/

namespace YtDl

/-- Python exception kinds that the embedded code can raise. -/
inductive PyErr where
  | valueError
  | typeError
  | attributeError
  | zeroDivisionError
  | integrityError
  deriving Repr, DecidableEq

instance {ε α : Type} [DecidableEq ε] [DecidableEq α] :
    DecidableEq (Except ε α) := fun a b =>
  match a, b with
  | .ok x, .ok y =>
    match decEq x y with
    | isTrue h => isTrue (by rw [h])
    | isFalse h => isFalse (by intro he; cases he; exact h rfl)
  | .error x, .error y =>
    match decEq x y with
    | isTrue h => isTrue (by rw [h])
    | isFalse h => isFalse (by intro he; cases he; exact h rfl)
  | .ok _, .error _ => isFalse (by intro he; cases he)
  | .error _, .ok _ => isFalse (by intro he; cases he)

/-! ## Character classes and basic string operations -/

/-- ASCII whitespace recognised by Python regex class backslash-s and by
`str.strip` / `str.split` (the sources only ever meet ASCII whitespace). -/
def isPySpace (c : Char) : Bool :=
  c = ' ' || c = '\t' || c = '\n' || c = '\x0d' || c = '\x0c' || c = '\x0b'

/-- Python regex word character (class backslash-w, ASCII fragment). -/
def isWordChar (c : Char) : Bool :=
  c.isAlphanum || c = '_'

/-- Lowercase a character list (Python `str.lower`, ASCII mapping). -/
def lowerL (s : List Char) : List Char :=
  s.map Char.toLower

/-- Python `str.lstrip()` on a character list. -/
def lstripL (s : List Char) : List Char :=
  s.dropWhile isPySpace

/-- Python `str.rstrip()` on a character list. -/
def rstripL : List Char → List Char
  | [] => []
  | c :: cs =>
    let r := rstripL cs
    if r = [] && isPySpace c then [] else c :: r

/-- Python `str.strip()` on a character list (`lstrip` then `rstrip`). -/
def pyStrip (s : List Char) : List Char :=
  rstripL (lstripL s)

/-- Python `str.strip()` on `String`. -/
def pyStripS (s : String) : String :=
  ⟨pyStrip s.data⟩

/-- Python `' '.join(parts)`. -/
def joinSp (parts : List (List Char)) : List Char :=
  List.intercalate [' '] parts

/-- Python `str.split()` with no argument: split on whitespace runs,
dropping empty pieces.  Structural recursion over the characters with an
accumulator for the word being built (in reverse). -/
def splitWsGo (acc : List Char) : List Char → List (List Char)
  | [] => if acc = [] then [] else [acc.reverse]
  | c :: cs =>
    if isPySpace c then
      if acc = [] then splitWsGo [] cs else acc.reverse :: splitWsGo [] cs
    else
      splitWsGo (c :: acc) cs

/-- Python `str.split()` (whitespace split, no empties). -/
def splitWs (s : List Char) : List (List Char) :=
  splitWsGo [] s

/-- Python `sub in s` / `s.find(sub) != -1`: substring occurrence. -/
def containsSub (needle : List Char) : List Char → Bool
  | [] => needle = []
  | c :: cs => needle.isPrefixOf (c :: cs) || containsSub needle cs

/-- Case-insensitive substring test (Django `icontains`, Python
`a.lower() in b.lower()`). -/
def containsCI (hay needle : String) : Bool :=
  containsSub (lowerL needle.data) (lowerL hay.data)

/-- Python `s.count(sub)` for a non-empty `sub`: number of non-overlapping
occurrences scanning left to right.  `fuel` bounds the recursion; the
wrapper passes the input length, which suffices because every step consumes
at least one character. -/
def countSubF (p : List Char) : Nat → List Char → Nat
  | 0, _ => 0
  | _ + 1, [] => 0
  | fuel + 1, c :: cs =>
    if p.isPrefixOf (c :: cs) then
      1 + countSubF p fuel (cs.drop (p.length - 1))
    else
      countSubF p fuel cs

/-- Python `s.count(sub)` (non-empty `sub`). -/
def countSub (p s : List Char) : Nat :=
  countSubF p s.length s

/-- Python `s.find(sub)`: index of the first occurrence, or `none`. -/
def findSubF (p : List Char) : Nat → List Char → Option Nat
  | 0, _ => none
  | _ + 1, [] => if p = [] then some 0 else none
  | fuel + 1, c :: cs =>
    if p.isPrefixOf (c :: cs) then some 0
    else (findSubF p fuel cs).map (· + 1)

/-- Python `s.find(sub)` as an `Option` index. -/
def findSub (p s : List Char) : Option Nat :=
  findSubF p (s.length + 1) s

/-! ## Dates: `parse_upload_date` (db_utils.py lines 22-40)

`datetime.strptime(s, "%Y%m%d")` validates the proleptic Gregorian
calendar and raises `ValueError` on an invalid date; in the source that
call is *outside* the `try`, so its `ValueError` propagates.
`datetime.fromisoformat` is inside a `try: ... except ValueError: return
None`.  `datetime.fromtimestamp` converts an epoch value (modelled in UTC
with exact day arithmetic). -/

/-- Gregorian leap year. -/
def isLeap (y : Int) : Bool :=
  (y % 4 = 0 && y % 100 ≠ 0) || y % 400 = 0

/-- Days in a month of the Gregorian calendar (0 for an invalid month). -/
def daysInMonth (y : Int) (m : Nat) : Nat :=
  if m = 1 ∨ m = 3 ∨ m = 5 ∨ m = 7 ∨ m = 8 ∨ m = 10 ∨ m = 12 then 31
  else if m = 4 ∨ m = 6 ∨ m = 9 ∨ m = 11 then 30
  else if m = 2 then (if isLeap y then 29 else 28)
  else 0

/-- A calendar date as stored by `datetime.date`. -/
structure PyDate where
  year : Int
  month : Nat
  day : Nat
  deriving Repr, DecidableEq

/-- Validity of a `datetime.date` triple (`datetime` accepts years 1-9999). -/
def validDate (y : Int) (m d : Nat) : Bool :=
  1 ≤ y && y ≤ 9999 && 1 ≤ m && m ≤ 12 && 1 ≤ d && d ≤ daysInMonth y m

/-- Digits of a character run as a number (the caller checks `isdigit`). -/
def digitsToNat (cs : List Char) : Nat :=
  cs.foldl (fun n c => n * 10 + (c.toNat - '0'.toNat)) 0

/-- `datetime.strptime(s, "%Y%m%d").date()` on an 8-digit string:
`some` date on a valid calendar date, `none` models the raised
`ValueError`. -/
def strptimeYmd (cs : List Char) : Option PyDate :=
  let y : Int := digitsToNat (cs.take 4)
  let m := digitsToNat ((cs.drop 4).take 2)
  let d := digitsToNat (cs.drop 6)
  if validDate y m d then some ⟨y, m, d⟩ else none

/-- `datetime.fromisoformat(s).date()` restricted to the date forms the
pipeline meets: `YYYY-MM-DD` with a valid calendar date (optionally
followed by a time part, which does not change the date and is not
modelled).  Any other input is a parse failure (`ValueError`, which the
source catches and turns into `None`). -/
def isoParseDate (cs : List Char) : Option PyDate :=
  match cs with
  | [y1, y2, y3, y4, '-', m1, m2, '-', d1, d2] =>
    if [y1, y2, y3, y4, m1, m2, d1, d2].all Char.isDigit then
      let y : Int := digitsToNat [y1, y2, y3, y4]
      let m := digitsToNat [m1, m2]
      let d := digitsToNat [d1, d2]
      if validDate y m d then some ⟨y, m, d⟩ else none
    else none
  | _ => none

/-- Civil-from-days conversion: the date `days` days after 1970-01-01
(proleptic Gregorian, UTC). -/
def civilFromDays (z : Int) : PyDate :=
  let z := z + 719468
  let era : Int := (if z ≥ 0 then z else z - 146096) / 146097
  let doe : Int := z - era * 146097
  let yoe : Int := (doe - doe / 1460 + doe / 36524 - doe / 146096) / 365
  let y : Int := yoe + era * 400
  let doy : Int := doe - (365 * yoe + yoe / 4 - yoe / 100)
  let mp : Int := (5 * doy + 2) / 153
  let d : Int := doy - (153 * mp + 2) / 5 + 1
  let m : Int := mp + (if mp < 10 then 3 else -9)
  ⟨y + (if m ≤ 2 then 1 else 0), m.toNat, d.toNat⟩

/-- `datetime.fromtimestamp(ts).date()` modelled in UTC. -/
def dateFromEpoch (ts : ℚ) : PyDate :=
  civilFromDays (⌊ts⌋ / 86400)

/-- A Python value passed as `upload_date` (the field is `Any`). -/
inductive DateVal where
  | vNone
  | vStr (s : String)
  | vInt (n : Int)
  | vFloat (q : ℚ)
  | vOther
  deriving Repr, DecidableEq

/-- Python truthiness of a `DateVal` (`if not upload_date`). -/
def dvTruthy : DateVal → Bool
  | .vNone => false
  | .vStr s => s ≠ ""
  | .vInt n => n ≠ 0
  | .vFloat q => q ≠ 0
  | .vOther => true

/-- `parse_upload_date` (db_utils.py lines 22-40).  The 8-digit branch
calls `strptime` outside any `try`, so an invalid calendar date raises
`ValueError`; the ISO branch catches `ValueError` and returns `None`;
numeric input goes through `fromtimestamp`; anything else returns `None`. -/
def parse_upload_date (v : DateVal) : Except PyErr (Option PyDate) :=
  if ¬ dvTruthy v then .ok none
  else
    match v with
    | .vStr s =>
      let cs := s.data
      if cs.length = 8 ∧ cs.all Char.isDigit then
        match strptimeYmd cs with
        | some d => .ok (some d)
        | none => .error .valueError
      else .ok (isoParseDate cs)
    | .vInt n => .ok (some (dateFromEpoch (n : ℚ)))
    | .vFloat q => .ok (some (dateFromEpoch q))
    | _ => .ok none

/-! ## Text cleaning: `TranscriptProcessor.clean_text`
(transcript_processor.py lines 77-114, default configuration)

The pipeline applies, in order:
1. filler-word removal: `re.sub(r'\b(?:um|uh|...)\b', '', text, flags=IGNORECASE)`;
2. whitespace normalization: `re.sub(r'\s+', ' ', text)` followed by
   `'\n'.join(line.strip() for line in text.split('\n'))`;
3. artifact fixing: `re.sub(r'\b(\w+)\s+\1\b', r'\1', text, flags=IGNORECASE)`
   and `re.sub(r'\b(\w+)\s*-\s*\1\b', r'\1', text)`;
4. final `strip()`.

Each `re.sub` is a left-to-right scan replacing non-overlapping leftmost
matches and resuming after each match; the scanners below carry the flag
"previous character is a word character", which decides the leading
word-boundary of every pattern (all patterns start and end on `\w`). -/

/-- The default `filler_words` configuration list. -/
def fillerWords : List (List Char) :=
  ["um", "uh", "like", "you know", "so", "well", "actually", "basically",
   "literally"].map String.data

/-- Word boundary to the right of a match: next character absent or not a
word character. -/
def boundaryAfter : List Char → Bool
  | [] => true
  | c :: _ => !isWordChar c

/-- Try one alternative of the filler alternation at the current position:
case-insensitive literal match followed by a word boundary. -/
def matchAlt (w s : List Char) : Bool :=
  lowerL (s.take w.length) = w && w.length ≤ s.length && boundaryAfter (s.drop w.length)

/-- Match the filler alternation at the current position (alternatives in
source order, backtracking to the next alternative when the trailing
boundary fails); returns the matched length. -/
def matchFiller (s : List Char) : Option Nat :=
  fillerWords.findSome? fun w => if matchAlt w s then some w.length else none

/-- Filler-removal scan.  The flag is the left word-boundary context; on a
match the filler is dropped and scanning resumes after it (the last
character of every filler word is a word character, so the flag becomes
`true`).  `fuel` bounds recursion; every step consumes at least one
character, so the input length suffices. -/
def fillerGo : Nat → Bool → List Char → List Char
  | 0, _, s => s
  | _ + 1, _, [] => []
  | fuel + 1, prevW, c :: cs =>
    match (if prevW then none else matchFiller (c :: cs)) with
    | some k => fillerGo fuel true ((c :: cs).drop k)
    | none => c :: fillerGo fuel (isWordChar c) cs

/-- Step 1 of `clean_text`: remove filler words. -/
def fillerPass (s : List Char) : List Char :=
  fillerGo s.length false s

/-- Occurrence check for the filler pattern under a left context flag. -/
def hasFillerAux : Bool → List Char → Bool
  | _, [] => false
  | prevW, c :: cs =>
    (!prevW && (matchFiller (c :: cs)).isSome) || hasFillerAux (isWordChar c) cs

/-- The filler pattern has no occurrence in `s`. -/
def fillerFree (s : List Char) : Bool :=
  !hasFillerAux false s

/-- Collapse whitespace runs to single spaces (`re.sub(r'\s+', ' ', s)`),
carrying "previous character was whitespace". -/
def collapseGo : Bool → List Char → List Char
  | _, [] => []
  | prevSp, c :: cs =>
    if isPySpace c then
      if prevSp then collapseGo true cs else ' ' :: collapseGo true cs
    else c :: collapseGo false cs

/-- Python `s.split('\n')` (keeps empty pieces). -/
def splitNlGo (acc : List Char) : List Char → List (List Char)
  | [] => [acc.reverse]
  | c :: cs => if c = '\n' then acc.reverse :: splitNlGo [] cs else splitNlGo (c :: acc) cs

/-- Step 2 of `clean_text`: collapse whitespace runs, then strip each line
and re-join with newlines. -/
def wsPass (s : List Char) : List Char :=
  List.intercalate ['\n'] ((splitNlGo [] (collapseGo false s)).map pyStrip)

/-- Match `(\w+)\s+\1\b` (IGNORECASE) at a word-start position: the group
must take the maximal word run (it is followed by `\s+`), the whitespace
run is maximal (it is followed by `\w`), and the backreference compares
case-insensitively and must end on a word boundary.  Returns the first
group and the rest of the input after the match. -/
def dupMatch (s : List Char) : Option (List Char × List Char) :=
  let w1 := s.takeWhile isWordChar
  if w1 = [] then none
  else
    let r1 := s.dropWhile isWordChar
    if r1.takeWhile isPySpace = [] then none
    else
      let r2 := r1.dropWhile isPySpace
      if lowerL (r2.take w1.length) = lowerL w1 && boundaryAfter (r2.drop w1.length) then
        some (w1, r2.drop w1.length)
      else none

/-- Repeated-word removal scan (`re.sub(r'\b(\w+)\s+\1\b', r'\1', s, IGNORECASE)`).
On a match the replacement is the first group; scanning resumes after the
match (whose last character is a word character). -/
def dedupGo : Nat → Bool → List Char → List Char
  | 0, _, s => s
  | _ + 1, _, [] => []
  | fuel + 1, prevW, c :: cs =>
    match (if prevW then none else dupMatch (c :: cs)) with
    | some (w1, rest) => w1 ++ dedupGo fuel true rest
    | none => c :: dedupGo fuel (isWordChar c) cs

/-- First artifact fix of `clean_text`: collapse immediately repeated words. -/
def dedupPass (s : List Char) : List Char :=
  dedupGo s.length false s

/-- Occurrence check for the repeated-word pattern. -/
def hasDupAux : Bool → List Char → Bool
  | _, [] => false
  | prevW, c :: cs =>
    (!prevW && (dupMatch (c :: cs)).isSome) || hasDupAux (isWordChar c) cs

/-- No occurrence of the repeated-word pattern. -/
def dupFree (s : List Char) : Bool :=
  !hasDupAux false s

/-- Match `(\w+)\s*-\s*\1\b` (case-sensitive) at a word-start position. -/
def dashMatch (s : List Char) : Option (List Char × List Char) :=
  let w1 := s.takeWhile isWordChar
  if w1 = [] then none
  else
    match (s.dropWhile isWordChar).dropWhile isPySpace with
    | '-' :: r3 =>
      let r4 := r3.dropWhile isPySpace
      if r4.take w1.length = w1 && boundaryAfter (r4.drop w1.length) then
        some (w1, r4.drop w1.length)
      else none
    | _ => none

/-- Second artifact fix (`re.sub(r'\b(\w+)\s*-\s*\1\b', r'\1', s)`). -/
def dashGo : Nat → Bool → List Char → List Char
  | 0, _, s => s
  | _ + 1, _, [] => []
  | fuel + 1, prevW, c :: cs =>
    match (if prevW then none else dashMatch (c :: cs)) with
    | some (w1, rest) => w1 ++ dashGo fuel true rest
    | none => c :: dashGo fuel (isWordChar c) cs

/-- Dash-joined duplicate removal pass. -/
def dashPass (s : List Char) : List Char :=
  dashGo s.length false s

/-- Occurrence check for the dash-duplicate pattern. -/
def hasDashAux : Bool → List Char → Bool
  | _, [] => false
  | prevW, c :: cs =>
    (!prevW && (dashMatch (c :: cs)).isSome) || hasDashAux (isWordChar c) cs

/-- No occurrence of the dash-duplicate pattern. -/
def dashFree (s : List Char) : Bool :=
  !hasDashAux false s

/-- `TranscriptProcessor.clean_text` with the default configuration (all
cleaning steps enabled, default filler list). -/
def clean_text (s : List Char) : List Char :=
  pyStrip (dashPass (dedupPass (wsPass (fillerPass s))))

/-! Normal-form predicates for cleaned text. -/

/-- Scan check: every whitespace character is a plain space and no two
whitespace characters are adjacent; with flag `true` a leading space is
also rejected. -/
def wsOkRun : Bool → List Char → Bool
  | _, [] => true
  | prevSp, c :: cs =>
    if isPySpace c then c = ' ' && !prevSp && wsOkRun true cs
    else wsOkRun false cs

/-- No trailing whitespace character. -/
def noTrailWs (s : List Char) : Bool :=
  match s.getLast? with
  | some c => !isPySpace c
  | none => true

/-- Whitespace-normal: collapsed single spaces only, none leading or
trailing. -/
def wsNormal (s : List Char) : Bool :=
  wsOkRun true s && noTrailWs s

/-! ## Chapter detection: `TranscriptProcessor.detect_chapters`
(transcript_processor.py lines 116-182, default configuration)

Snippets reach the detector as dicts; `float(entry.get('start', 0))`
yields the numeric value, `0.0` for a missing key, and raises `ValueError`
for a malformed value, in which case the entry is skipped (`continue`).
`text` defaults to the empty string.  The walk accumulates text; a break
happens at entry `i` when the gap to entry `i+1` is at least
`min_silence_gap_seconds` *and* the elapsed span is at least
`min_chapter_length_seconds` (a `ValueError` while reading the next start
suppresses the break); the last entry always sets the break flag; a chapter
is emitted only when the break flag holds *and* the elapsed span meets the
minimum length. -/

/-- The `start` field of a snippet dict as the detector reads it. -/
inductive StartVal where
  | num (q : ℚ)
  | missing
  | malformed
  deriving Repr, DecidableEq

/-- `float(entry.get('start', 0))`: the numeric value, `0` when missing,
`none` when `float` raises `ValueError`. -/
def startF : StartVal → Option ℚ
  | .num q => some q
  | .missing => some 0
  | .malformed => none

/-- A snippet as consumed by the detector (`text` defaults to `""`). -/
structure Snip where
  start : StartVal
  text : String
  deriving Repr, DecidableEq

/-- A detected chapter record. -/
structure PyChapter where
  start_time : ℚ
  end_time : ℚ
  duration : ℚ
  text : String
  summary : String
  word_count : Nat
  deriving Repr, DecidableEq

/-- Build one chapter record: joined stripped text, optional 8-word
summary (summaries are enabled in the default configuration), word count. -/
def mkChapter (st en : ℚ) (acc : List String) : PyChapter :=
  let chapter_text : String := ⟨pyStrip (joinSp (acc.map String.data))⟩
  let ws := (splitWs chapter_text.data).take 8
  let summary : String :=
    if chapter_text ≠ "" then
      ⟨joinSp ws⟩ ++ (if ws.length = 8 then "..." else "")
    else ""
  { start_time := st, end_time := en, duration := en - st,
    text := chapter_text, summary := summary,
    word_count := (splitWs chapter_text.data).length }

/-- The detector walk.  State: current chapter start and accumulated text
list; returns the emitted chapters together with the final state (the
final accumulated text is what the source drops on exit). -/
def detectGo (minGap minLen : ℚ) :
    ℚ → List String → List Snip → List PyChapter × ℚ × List String
  | chStart, acc, [] => ([], chStart, acc)
  | chStart, acc, e :: rest =>
    match startF e.start with
    | none => detectGo minGap minLen chStart acc rest
    | some st =>
      let acc' := acc ++ [e.text]
      let isBreak : Bool :=
        match rest with
        | [] => true
        | e2 :: _ =>
          match startF e2.start with
          | none => false
          | some st2 => decide (st2 - st ≥ minGap ∧ st - chStart ≥ minLen)
      if isBreak ∧ st - chStart ≥ minLen then
        let r := detectGo minGap minLen st [] rest
        (mkChapter chStart st acc' :: r.1, r.2)
      else
        detectGo minGap minLen chStart acc' rest

/-- `TranscriptProcessor.detect_chapters` with detection enabled and
summaries on (the default configuration), for the given gap and
minimum-length thresholds. -/
def detect_chapters (minGap minLen : ℚ) (snips : List Snip) : List PyChapter :=
  (detectGo minGap minLen 0 [] snips).1

/-! ## Content metrics and quality: `MetadataCollector`
(metadata_collector.py lines 226-337 and 475-488)

Transcript entries are read with `entry.get('text', '')` and
`float(entry.get('start', 0))` (a `ValueError` there is caught and the
duration treated as zero), so the `Snip` type is reused.  The keyword /
topic / language / categorization sub-analyses of `content_analysis` are
total functions of the text that no claim inspects; they are not modelled.
`round(x, n)` is modelled as exact half-to-even decimal rounding. -/

/-- Python `round` to an integer (banker's rounding). -/
def roundHalfEven (x : ℚ) : Int :=
  let f := ⌊x⌋
  if x - f < 1/2 then f
  else if x - f > 1/2 then f + 1
  else if Even f then f else f + 1

/-- Python `round(x, n)` on exact rationals. -/
def pyRound (x : ℚ) (n : ℕ) : ℚ :=
  (roundHalfEven (x * 10 ^ n) : ℚ) / 10 ^ n

/-- The fixed artifact vocabulary of `_assess_content_quality`. -/
def artifactsList : List String :=
  ["[Music]", "[Applause]", "[Laughter]", "[Noise]", "[Inaudible]",
   "um", "uh", "er", "ah", "...", "--"]

/-- The incompleteness indicator list of `_assess_content_quality`. -/
def incompleteList : List String :=
  ["[", "]", "...", "--", "inaudible", "unclear"]

/-- `_categorize_quality` (metadata_collector.py lines 475-488). -/
def categorize_quality (q : ℚ) : String :=
  if q ≥ 90 then "Excellent"
  else if q ≥ 80 then "Very Good"
  else if q ≥ 70 then "Good"
  else if q ≥ 60 then "Fair"
  else if q ≥ 50 then "Poor"
  else "Very Poor"

/-- The spec formula: clamp into an interval. -/
def clamp (lo hi x : ℚ) : ℚ :=
  min hi (max lo x)

/-- The spec reading of the quality bands: the first threshold at or below
the score decides the label, `"Very Poor"` below all five thresholds. -/
def specBands : List (ℚ × String) :=
  [(90, "Excellent"), (80, "Very Good"), (70, "Good"), (60, "Fair"),
   (50, "Poor")]

/-- Modelled from the spec: category bucketed by score over the bands of
`specBands`. -/
def specCategorize (q : ℚ) : String :=
  ((specBands.find? fun b => q ≥ b.1).map Prod.snd).getD "Very Poor"

/-- The `quality_assessment` record. -/
structure QualityResult where
  quality_score : ℚ
  artifact_count : Nat
  artifact_ratio : ℚ
  incomplete_indicators : Nat
  incomplete_ratio : ℚ
  average_entry_length : ℚ
  entry_consistency : ℚ
  quality_category : String
  deriving Repr, DecidableEq

/-- `MetadataCollector._assess_content_quality` (lines 295-337).  Artifact
and indicator occurrences are counted on the lowercased text; the quality
score is `max(0, 100 - artifact_ratio*100 - incomplete_ratio*50)`; the
entry-consistency expression divides by `max(entry_lengths)` and raises
`ZeroDivisionError` when that maximum is zero (all entry texts empty). -/
def assess_content_quality (full_text : List Char) (entries : List Snip) :
    Except PyErr QualityResult :=
  let low := lowerL full_text
  let artifact_count := (artifactsList.map fun a => countSub (lowerL a.data) low).sum
  let incomplete_count := (incompleteList.map fun a => countSub a.data low).sum
  let words := splitWs full_text
  let artifact_ratio : ℚ :=
    if words ≠ [] then (artifact_count : ℚ) / words.length else 0
  let incomplete_ratio : ℚ :=
    if words ≠ [] then (incomplete_count : ℚ) / words.length else 0
  let quality_score : ℚ := max 0 (100 - artifact_ratio * 100 - incomplete_ratio * 50)
  let entry_lengths := entries.map fun e => e.text.length
  let avg : ℚ :=
    if entry_lengths ≠ [] then (entry_lengths.sum : ℚ) / entry_lengths.length else 0
  if entry_lengths = [] then
    .ok { quality_score := pyRound quality_score 1,
          artifact_count := artifact_count,
          artifact_ratio := pyRound artifact_ratio 3,
          incomplete_indicators := incomplete_count,
          incomplete_ratio := pyRound incomplete_ratio 3,
          average_entry_length := pyRound avg 1,
          entry_consistency := 0,
          quality_category := categorize_quality quality_score }
  else
    let mx := entry_lengths.max?.getD 0
    let mn := entry_lengths.min?.getD 0
    if mx = 0 then .error .zeroDivisionError
    else
      .ok { quality_score := pyRound quality_score 1,
            artifact_count := artifact_count,
            artifact_ratio := pyRound artifact_ratio 3,
            incomplete_indicators := incomplete_count,
            incomplete_ratio := pyRound incomplete_ratio 3,
            average_entry_length := pyRound avg 1,
            entry_consistency := pyRound (1 - ((mx : ℚ) - mn) / mx) 2,
            quality_category := categorize_quality quality_score }

/-- Sentence-boundary characters of `re.split(r'[.!?]+', text)`. -/
def isSentencePunct (c : Char) : Bool :=
  c = '.' || c = '!' || c = '?'

/-- `re.split(r'[.!?]+', text)`: split on maximal punctuation runs,
keeping empty pieces at the boundaries. -/
def splitPunctGo (inRun : Bool) (acc : List Char) : List Char → List (List Char)
  | [] => [acc.reverse]
  | c :: cs =>
    if isSentencePunct c then
      if inRun then splitPunctGo true acc cs
      else acc.reverse :: splitPunctGo true [] cs
    else splitPunctGo false (acc ++ [c]) cs

/-- The `content_metrics` record of `_calculate_content_metrics`. -/
structure ContentMetrics where
  word_count : Nat
  sentence_count : Nat
  character_count : Nat
  character_count_no_spaces : Nat
  average_words_per_sentence : ℚ
  average_sentence_length : ℚ
  speaking_rate_wpm : ℚ
  estimated_reading_time_minutes : ℚ
  lexical_diversity : ℚ
  total_duration_seconds : ℚ
  transcript_entries_count : Nat
  deriving Repr, DecidableEq

/-- `MetadataCollector._calculate_content_metrics` (lines 263-293). -/
def calculate_content_metrics (full_text : List Char) (entries : List Snip) :
    ContentMetrics :=
  let words := splitWs full_text
  let sentences := ((splitPunctGo false [] full_text).map pyStrip).filter (· ≠ [])
  let total_duration : ℚ :=
    match entries.getLast? with
    | some e => (startF e.start).getD 0
    | none => 0
  let speaking_rate : ℚ :=
    if total_duration > 0 then (words.length : ℚ) / (total_duration / 60) else 0
  { word_count := words.length,
    sentence_count := sentences.length,
    character_count := full_text.length,
    character_count_no_spaces := (full_text.filter (· ≠ ' ')).length,
    average_words_per_sentence :=
      if sentences ≠ [] then (words.length : ℚ) / sentences.length else 0,
    average_sentence_length :=
      if sentences ≠ [] then ((sentences.map List.length).sum : ℚ) / sentences.length
      else 0,
    speaking_rate_wpm := pyRound speaking_rate 1,
    estimated_reading_time_minutes := pyRound ((words.length : ℚ) / 200) 1,
    lexical_diversity :=
      if words ≠ [] then (words.dedup.length : ℚ) / words.length else 0,
    total_duration_seconds := total_duration,
    transcript_entries_count := entries.length }

/-- The transcript-analysis result (`content_metrics` plus
`quality_assessment`; the `content_analysis` sub-maps are total functions
of the text that no claim inspects and are not modelled). -/
structure AnalysisResult where
  content_metrics : ContentMetrics
  quality_assessment : QualityResult
  deriving Repr, DecidableEq

/-- `MetadataCollector.analyze_transcript_content` (lines 226-261) with the
default configuration (quality assessment enabled).  An empty entry list
returns the empty dict (`none`); otherwise the joined text is analyzed, and
any exception from a sub-analysis propagates. -/
def analyze_transcript_content (entries : List Snip) :
    Except PyErr (Option AnalysisResult) :=
  if entries = [] then .ok none
  else
    let full_text := joinSp (entries.map fun e => e.text.data)
    let metrics := calculate_content_metrics full_text entries
    match assess_content_quality full_text entries with
    | .error e => .error e
    | .ok q => .ok (some ⟨metrics, q⟩)

/-! ## Persistence: models.py and db_utils.py

The four tables of models.py are modelled as lists of row records; the
table state carries an id sequence for the auto-increment primary keys.
`Video.video_id` is the table's primary key (models.py line 13), so the
insert path enforces global uniqueness of `video_id` across users.
`sha256` is modelled as the free digest of its preimage.  Python dicts of
optional heterogeneous fields are modelled as records of `Option` fields
(an absent key and a `None` value coincide in this model); `x or y`
chains are modelled with truthiness-aware combinators (`""`, `0`, `None`,
`False` and empty collections are falsy).  `processed_at` (auto_now_add)
is supplied by a `now` clock parameter on insert. -/

/-- A SHA-256 digest, modelled as the free digest of its preimage. -/
inductive Digest where
  | sha256 (preimage : String)
  deriving Repr, DecidableEq

/-- `sha256_text` (db_utils.py lines 17-19): hash of the stripped text. -/
def sha256_text (s : String) : Digest :=
  .sha256 (pyStripS s)

/-- Python `a or b` on optional strings (`""` is falsy). -/
def orS : Option String → Option String → Option String
  | some s, b => if s = "" then b else some s
  | none, b => b

/-- Python `a or b` on optional numbers (`0` is falsy). -/
def orQ : Option ℚ → Option ℚ → Option ℚ
  | some q, b => if q = 0 then b else some q
  | none, b => b

/-- Python `a or b` on optional date values. -/
def orD : Option DateVal → Option DateVal → Option DateVal
  | some v, b => if dvTruthy v then some v else b
  | none, b => b

/-- Python `a or b` on optional booleans (`False` is falsy). -/
def orB : Option Bool → Option Bool → Option Bool
  | some true, _ => some true
  | some false, b => b
  | none, b => b

/-- Keep an optional number only when truthy (non-zero). -/
def truthyQ : Option ℚ → Option ℚ
  | some q => if q = 0 then none else some q
  | none => none

/-- Python `int()` on a float: truncation toward zero. -/
def pyInt (q : ℚ) : Int :=
  if q ≥ 0 then ⌊q⌋ else ⌈q⌉

/-- The fields of a video-info / metadata dict that `save_video_to_db`
reads. -/
structure InfoDict where
  title : Option String := none
  duration : Option ℚ := none
  duration_s : Option ℚ := none
  upload_date : Option DateVal := none
  uploader : Option String := none
  channel : Option String := none
  language : Option String := none
  language_code : Option String := none
  is_generated : Option Bool := none
  deriving Repr, DecidableEq

/-- The fields of a segment dict that `save_segments_to_db` reads
(`endv` stands for the `"end"` key); unmodelled keys are carried in
`extra`. -/
structure SegDict where
  text : Option String := none
  start : Option ℚ := none
  start_time : Option ℚ := none
  duration : Option ℚ := none
  dur : Option ℚ := none
  endv : Option ℚ := none
  extra : List (String × String) := []
  deriving Repr, DecidableEq

/-- A segment entry: dict, or a bare string (skipped by the saver but
fatal to the statistics loop in `save_video_to_db`). -/
inductive SegIn where
  | str (s : String)
  | dict (d : SegDict)
  deriving Repr, DecidableEq

/-- The fields of a chapter dict that `save_chapters_to_db` reads. -/
structure ChapterIn where
  start : Option ℚ := none
  start_time : Option ℚ := none
  endv : Option ℚ := none
  end_time : Option ℚ := none
  text : Option String := none
  title : Option String := none
  summary : Option String := none
  deriving Repr, DecidableEq

/-- The structured-JSON payload fields read by `save_video_to_db`. -/
structure StructuredIn where
  metadata : Option InfoDict := none
  info : Option InfoDict := none
  title : Option String := none
  snippets : Option (List SegIn) := none
  segments : Option (List SegIn) := none
  deriving Repr, DecidableEq

/-- A `Video` table row (models.py lines 11-40; `video_id` is the primary
key, `user` a foreign key). -/
structure VideoRow where
  video_id : String
  user : Nat
  title : String
  duration_s : Option Int
  upload_date : Option PyDate
  uploader : Option String
  language_code : Option String
  is_generated : Option Bool
  metadata : Option StructuredIn
  text_word_count : Option Nat
  text_char_count : Option Nat
  processed_at : Int
  deriving Repr, DecidableEq

/-- A `Chapter` table row (models.py lines 43-72). -/
structure ChapterRow where
  id : Nat
  video_id : String
  start_time_s : ℚ
  end_time_s : Option ℚ
  text : String
  summary : Option String
  deriving Repr, DecidableEq

/-- A `TranscriptSegment` table row (models.py lines 75-107; the
Postgres-maintained `search_vector` column is not modelled). -/
structure SegRow where
  id : Nat
  video_id : String
  start_time_s : ℚ
  duration_s : ℚ
  text : String
  is_generated : Option Bool
  source : String
  text_hash : Digest
  extra : List (String × String)
  deriving Repr, DecidableEq

/-- A `RawAsset` table row (models.py lines 110-133; unique per
(video, kind)). -/
structure AssetRow where
  video_id : String
  kind : String
  content_text : Option String
  content_json : Option StructuredIn
  deriving Repr, DecidableEq

/-- The durable store: the four tables and the id sequence. -/
structure DB where
  videos : List VideoRow
  chapters : List ChapterRow
  segments : List SegRow
  assets : List AssetRow
  seq : Nat
  deriving Repr, DecidableEq

/-- Rows of the `Chapter` table belonging to one video. -/
def chaptersOf (db : DB) (vid : String) : List ChapterRow :=
  db.chapters.filter fun c => c.video_id = vid

/-- Rows of the `TranscriptSegment` table belonging to one video. -/
def segmentsOf (db : DB) (vid : String) : List SegRow :=
  db.segments.filter fun s => s.video_id = vid

/-- The text-statistics block of `save_video_to_db` (lines 77-87): join
the snippet (or segment) texts and count words and characters; `.get`
on a bare-string entry raises `AttributeError`. -/
def video_text_stats (structured_data : Option StructuredIn) :
    Except PyErr (Option Nat × Option Nat) := do
  match structured_data with
  | none => pure (none, none)
  | some sd =>
    let segs : List SegIn :=
      match sd.snippets with
      | some l => if l = [] then sd.segments.getD [] else l
      | none => sd.segments.getD []
    if segs = [] then pure (none, none)
    else do
      let texts ← segs.mapM fun s =>
        match s with
        | .str _ => Except.error PyErr.attributeError
        | .dict d => Except.ok (d.text.getD "")
      let all_text := joinSp (texts.map String.data)
      pure (some (splitWs all_text).length, some all_text.length)

/-- `save_video_to_db` (db_utils.py lines 43-106).  Field extraction
follows the source's `or` chains; `parse_upload_date` may raise; the
statistics loop calls `.get` on each segment entry and raises
`AttributeError` on a bare-string entry; `update_or_create` keyed by
`(video_id, user)` updates a matching row or inserts, and an insert
violating the `video_id` primary key raises `IntegrityError`. -/
def save_video_to_db (db : DB) (user : Nat) (video_id : String)
    (video_info : InfoDict) (structured_data : Option StructuredIn)
    (now : Int) : Except PyErr (DB × VideoRow) := do
  let info : InfoDict :=
    match structured_data with
    | some sd =>
      match sd.metadata with
      | some i => i
      | none =>
        match sd.info with
        | some i => i
        | none => video_info
    | none => video_info
  let title : String :=
    (orS info.title (orS (structured_data.bind (·.title))
      (orS video_info.title (some ("Video " ++ video_id))))).getD ""
  let duration_s := orQ info.duration (orQ info.duration_s video_info.duration)
  let durationVal : Option Int :=
    match duration_s with
    | some q => if q = 0 then none else some (pyInt q)
    | none => none
  let upload_date ← parse_upload_date
    ((orD info.upload_date video_info.upload_date).getD .vNone)
  let uploader := orS info.uploader (orS info.channel video_info.uploader)
  let language_code :=
    orS info.language (orS info.language_code video_info.language_code)
  let is_generated := orB info.is_generated video_info.is_generated
  let stats ← video_text_stats structured_data
  match db.videos.find? fun r => r.video_id = video_id ∧ r.user = user with
  | some r =>
    let r' : VideoRow :=
      { r with title := title, duration_s := durationVal,
               upload_date := upload_date, uploader := uploader,
               language_code := language_code, is_generated := is_generated,
               metadata := structured_data, text_word_count := stats.1,
               text_char_count := stats.2 }
    .ok ({ db with videos := db.videos.map fun x =>
            if x.video_id = video_id ∧ x.user = user then r' else x }, r')
  | none =>
    if db.videos.any fun r => r.video_id = video_id then
      .error .integrityError
    else
      let r' : VideoRow :=
        { video_id := video_id, user := user, title := title,
          duration_s := durationVal, upload_date := upload_date,
          uploader := uploader, language_code := language_code,
          is_generated := is_generated, metadata := structured_data,
          text_word_count := stats.1, text_char_count := stats.2,
          processed_at := now }
      .ok ({ db with videos := db.videos ++ [r'] }, r')

/-- Conversion of one chapter dict into a row
(the body of the loop in `save_chapters_to_db`). -/
def chapterRowOf (vid : String) (i : Nat) (ch : ChapterIn) : ChapterRow :=
  { id := i, video_id := vid,
    start_time_s := (orQ ch.start ch.start_time).getD 0,
    end_time_s := truthyQ (orQ ch.endv ch.end_time),
    text := pyStripS ((orS ch.text ch.title).getD ""),
    summary := ch.summary }

/-- `save_chapters_to_db` (db_utils.py lines 109-132): early return on an
empty list, else delete the video's chapters and bulk-insert the new
rows. -/
def save_chapters_to_db (db : DB) (vid : String) (chapters : List ChapterIn) :
    DB :=
  if chapters = [] then db
  else
    let remaining := db.chapters.filter fun c => ¬ c.video_id = vid
    let rows := chapters.enum.map fun p => chapterRowOf vid (db.seq + p.1) p.2
    { db with chapters := remaining ++ rows, seq := db.seq + chapters.length }

/-- Conversion of one segment entry into a row (the body of the loop in
`save_segments_to_db`): bare strings are skipped, empty trimmed text is
skipped, the duration defaults follow the source; the assigned id is
patched in afterwards. -/
def segRowOf (vid source : String) (is_gen : Option Bool) :
    SegIn → Option SegRow
  | .str _ => none
  | .dict d =>
    let text := pyStripS (d.text.getD "")
    if text = "" then none
    else
      let start := (orQ d.start d.start_time).getD 0
      let dur0 := (orQ d.duration d.dur).getD 0
      let dur1 :=
        match d.endv with
        | some e => if dur0 ≤ 0 ∧ e ≠ 0 then max 0.5 (e - start) else dur0
        | none => dur0
      let dur2 := if dur1 ≤ 0 then 3 else dur1
      some { id := 0, video_id := vid, start_time_s := start,
             duration_s := dur2, text := text, is_generated := is_gen,
             source := source, text_hash := sha256_text text,
             extra := d.extra }

/-- `save_segments_to_db` (db_utils.py lines 135-180). -/
def save_segments_to_db (db : DB) (vid : String) (segments : List SegIn)
    (source : String) (is_gen : Option Bool) : DB :=
  if segments = [] then db
  else
    let remaining := db.segments.filter fun s => ¬ s.video_id = vid
    let converted := segments.filterMap (segRowOf vid source is_gen)
    let rows := converted.enum.map fun p => { p.2 with id := db.seq + p.1 }
    { db with segments := remaining ++ rows, seq := db.seq + rows.length }

/-- `RawAsset.objects.update_or_create` keyed by (video, kind) with a
text-content default. -/
def upsert_asset_text (db : DB) (vid kind : String) (content : String) : DB :=
  if db.assets.any fun a => a.video_id = vid ∧ a.kind = kind then
    { db with assets := db.assets.map fun a =>
        if a.video_id = vid ∧ a.kind = kind then
          { a with content_text := some content }
        else a }
  else
    { db with assets := db.assets ++
        [{ video_id := vid, kind := kind, content_text := some content,
           content_json := none }] }

/-- `RawAsset.objects.update_or_create` with a JSON-content default. -/
def upsert_asset_json (db : DB) (vid kind : String) (content : StructuredIn) :
    DB :=
  if db.assets.any fun a => a.video_id = vid ∧ a.kind = kind then
    { db with assets := db.assets.map fun a =>
        if a.video_id = vid ∧ a.kind = kind then
          { a with content_json := some content }
        else a }
  else
    { db with assets := db.assets ++
        [{ video_id := vid, kind := kind, content_text := none,
           content_json := some content }] }

/-- `save_raw_assets_to_db` (db_utils.py lines 183-210): upsert each kind
whose content is truthy. -/
def save_raw_assets_to_db (db : DB) (vid : String)
    (clean_text timestamped_text : Option String)
    (structured_json : Option StructuredIn) : DB :=
  let db1 :=
    match clean_text with
    | some s => if s = "" then db else upsert_asset_text db vid "clean_text" s
    | none => db
  let db2 :=
    match timestamped_text with
    | some s => if s = "" then db1 else upsert_asset_text db1 vid "timestamped" s
    | none => db1
  match structured_json with
  | some sd => upsert_asset_json db2 vid "structured_json" sd
  | none => db2

/-- The argument bundle of `save_transcript_to_db`. -/
structure SaveArgs where
  user : Nat
  video_id : String
  video_info : InfoDict
  structured_data : Option StructuredIn := none
  segments : Option (List SegIn) := none
  chapters : Option (List ChapterIn) := none
  clean_text : Option String := none
  timestamped_text : Option String := none
  source : String := "youtube"
  is_generated : Option Bool := none
  deriving Repr, DecidableEq

/-- `save_transcript_to_db` (db_utils.py lines 213-260) without the
transaction wrapper: video upsert, then chapter replacement and segment
replacement (each only when the supplied list is truthy, i.e. present and
non-empty), then raw-asset upserts. -/
def save_transcript_to_db (db : DB) (a : SaveArgs) (now : Int) :
    Except PyErr (DB × VideoRow) := do
  let (db1, video) ← save_video_to_db db a.user a.video_id a.video_info
    a.structured_data now
  let db2 :=
    match a.chapters with
    | some chs =>
      if chs = [] then db1 else save_chapters_to_db db1 video.video_id chs
    | none => db1
  let db3 :=
    match a.segments with
    | some segs =>
      if segs = [] then db2
      else save_segments_to_db db2 video.video_id segs a.source a.is_generated
    | none => db2
  let db4 := save_raw_assets_to_db db3 video.video_id a.clean_text
    a.timestamped_text a.structured_data
  pure (db4, video)

/-- The `@transaction.atomic` wrapper: on any exception the transaction
rolls back, so the state visible to the caller afterwards is the entry
state; on success the computed state is committed. -/
def save_transcript_run (db : DB) (a : SaveArgs) (now : Int) :
    DB × Except PyErr VideoRow :=
  match save_transcript_to_db db a now with
  | .ok (db', v) => (db', .ok v)
  | .error e => (db, .error e)

/-! ### Stage views of `save_transcript_to_db` and concrete fixtures -/

/-- The chapter-save stage inlined in `save_transcript_to_db`
(db_utils.py lines 241-243). -/
def chapStage (db : DB) (vid : String) (o : Option (List ChapterIn)) : DB :=
  match o with
  | some chs => if chs = [] then db else save_chapters_to_db db vid chs
  | none => db

def segStage (db : DB) (vid : String) (o : Option (List SegIn))
    (src : String) (ig : Option Bool) : DB :=
  match o with
  | some segs => if segs = [] then db else save_segments_to_db db vid segs src ig
  | none => db

def dbEmpty : DB :=
  { videos := [], chapters := [], segments := [], assets := [], seq := 0 }

def chFix : ChapterIn := { start := some 0, title := some "Intro" }

def argsFull : SaveArgs :=
  { user := 1, video_id := "v1", video_info := {},
    chapters := some [chFix], clean_text := some "hello world" }

def rowNew : VideoRow :=
  { video_id := "v1", user := 1, title := "Video v1", duration_s := none,
    upload_date := none, uploader := none, language_code := none,
    is_generated := none, metadata := none, text_word_count := none,
    text_char_count := none, processed_at := 0 }

def vidOwner1 : VideoRow :=
  { video_id := "v1", user := 1, title := "T", duration_s := none,
    upload_date := none, uploader := none, language_code := none,
    is_generated := none, metadata := none, text_word_count := none,
    text_char_count := none, processed_at := 0 }

def vidOwner1u : VideoRow := { vidOwner1 with title := "Video v1" }

def chRow1 : ChapterRow :=
  { id := 5, video_id := "v1", start_time_s := 0, end_time_s := none,
    text := "Old", summary := none }

def dbFix : DB :=
  { videos := [vidOwner1], chapters := [chRow1], segments := [], assets := [],
    seq := 6 }

def argsEmptyCh : SaveArgs :=
  { user := 1, video_id := "v1", video_info := {}, chapters := some [] }

def dbOwned : DB :=
  { videos := [vidOwner1], chapters := [], segments := [], assets := [],
    seq := 0 }

def argsOther : SaveArgs := { user := 2, video_id := "v1", video_info := {} }


/-! ## Search: `TranscriptSearchEngine.search_transcripts`
(search_utils.py lines 12-136 and helpers 240-419) -/

/-- A serialized segment dict of the search API (search_utils.py lines
341-350; the mock dict of lines 398-405 has the same keys). -/
structure ResultSegment where
  id : Nat
  start_time_s : ℚ
  duration_s : ℚ
  text : String
  is_generated : Option Bool
  source : String
  deriving Repr, DecidableEq

/-- One entry of `results` (lines 113-118 / 301-307): the serialized
video is kept as the row plus its two related counts. -/
structure VideoEntry where
  video : VideoRow
  chapters_count : Nat
  segments_count : Nat
  matching_segments : List ResultSegment
  total_segments : Nat
  relevance_score : ℚ
  deriving Repr, DecidableEq

/-- The `video_filters` dict keys read by `_apply_video_filters`
(lines 240-260). -/
structure VideoFilters where
  title : Option String := none
  uploader : Option String := none
  date_from : Option PyDate := none
  date_to : Option PyDate := none
  duration_min : Option Int := none
  duration_max : Option Int := none
  deriving Repr, DecidableEq

/-- The `filters_applied` value: `_get_video_results` answers the empty
dict (line 319), `search_transcripts` the four-key dict (lines 130-135). -/
inductive FiltersApplied where
  | empty
  | applied (video_filters : VideoFilters) (time_range : Option (ℚ × ℚ))
      (language : Option String) (is_generated : Option Bool)
  deriving Repr, DecidableEq

/-- The search response envelope (lines 120-136 / 309-320). -/
structure SearchEnvelope where
  results : List VideoEntry
  total_count : Nat
  page : Int
  page_size : Nat
  total_pages : Nat
  has_next : Bool
  has_previous : Bool
  query : String
  search_type : String
  filters_applied : FiltersApplied
  deriving Repr, DecidableEq

/-- Stable insertion: `a` goes before the first element that does not
strictly precede it. -/
def insertByLt {α : Type} (lt : α → α → Bool) (a : α) : List α → List α
  | [] => [a]
  | b :: t => if lt b a then b :: insertByLt lt a t else a :: b :: t

/-- Stable sort by a strict precedence test (models Django `order_by`
over the stored row order). -/
def sortByLt {α : Type} (lt : α → α → Bool) : List α → List α
  | [] => []
  | a :: t => insertByLt lt a (sortByLt lt t)

/-- Date order for the `__date__gte` / `__date__lte` filters. -/
def dateLe (a b : PyDate) : Bool :=
  a.year < b.year || (a.year = b.year &&
    (a.month < b.month || (a.month = b.month && a.day ≤ b.day)))

/-- `TranscriptSearchEngine.__init__` (line 18): the base queryset is the
user's videos, or all videos when no user is given. -/
def base_queryset (db : DB) (user : Option Nat) : List VideoRow :=
  match user with
  | some u => db.videos.filter fun v => v.user = u
  | none => db.videos

/-- `_apply_video_filters` (lines 240-260): each present key narrows the
queryset; `icontains` against a null column matches nothing, and the date
keys compare the calendar date of `processed_at` (an epoch value here). -/
def apply_video_filters (l : List VideoRow) (f : VideoFilters) :
    List VideoRow :=
  let l1 := match f.title with
    | some t => l.filter fun v => containsCI v.title t
    | none => l
  let l2 := match f.uploader with
    | some t => l1.filter fun v =>
        match v.uploader with
        | some up => containsCI up t
        | none => false
    | none => l1
  let l3 := match f.date_from with
    | some d => l2.filter fun v => dateLe d (dateFromEpoch (v.processed_at : ℚ))
    | none => l2
  let l4 := match f.date_to with
    | some d => l3.filter fun v => dateLe (dateFromEpoch (v.processed_at : ℚ)) d
    | none => l3
  let l5 := match f.duration_min with
    | some m => l4.filter fun v =>
        match v.duration_s with
        | some d => m ≤ d
        | none => false
    | none => l4
  match f.duration_max with
  | some m => l5.filter fun v =>
      match v.duration_s with
      | some d => d ≤ m
      | none => false
  | none => l5

/-- `_apply_sorting` (lines 278-291). -/
def apply_sorting (l : List VideoRow) (sort_by : String) (query : String) :
    List VideoRow :=
  if sort_by = "relevance" ∧ ¬ query = "" then
    sortByLt (fun b a => a.processed_at < b.processed_at) l
  else if sort_by = "date" then
    sortByLt (fun b a => a.processed_at < b.processed_at) l
  else if sort_by = "duration" then
    sortByLt (fun b a =>
      match b.duration_s, a.duration_s with
      | none, some _ => true
      | some x, some y => y < x
      | _, _ => false) l
  else if sort_by = "title" then
    sortByLt (fun b a => b.title < a.title) l
  else
    sortByLt (fun b a => a.processed_at < b.processed_at) l

/-- `Paginator.num_pages` with the default orphans and
`allow_empty_first_page`: the ceiling of count over per-page, at least 1. -/
def numPages (count per : Nat) : Nat := (max 1 count + per - 1) / per

/-- `Paginator.get_page` page-number handling: a number below 1 or above
`num_pages` raises `EmptyPage` internally and `get_page` answers the last
page. -/
def pageClamp (p : Int) (np : Nat) : Nat :=
  if p < 1 ∨ (np : Int) < p then np else p.toNat

/-- The page slice `object_list[(p-1)*per : p*per]`. -/
def pageSlice {α : Type} (l : List α) (p per : Nat) : List α :=
  (l.drop ((p - 1) * per)).take per

/-- One entry of `_serialize_segments` (lines 341-350). -/
def serializeSeg (s : SegRow) : ResultSegment :=
  { id := s.id, start_time_s := s.start_time_s, duration_s := s.duration_s,
    text := s.text, is_generated := s.is_generated, source := s.source }

/-- `_calculate_relevance_score` (lines 407-419). -/
def relevance_score (v : VideoRow) (query : String) : ℚ :=
  if query = "" then 0
  else if containsCI v.title query then 1 else 1 / 2

/-- `_get_video_results` (lines 293-320). -/
def get_video_results (db : DB) (l : List VideoRow) (sort_by : String)
    (page : Int) (page_size : Nat) : SearchEnvelope :=
  let sorted := apply_sorting l sort_by ""
  let np := numPages sorted.length page_size
  let pg := pageClamp page np
  { results := (pageSlice sorted pg page_size).map fun v =>
      { video := v, chapters_count := (chaptersOf db v.video_id).length,
        segments_count := (segmentsOf db v.video_id).length,
        matching_segments := [],
        total_segments := (segmentsOf db v.video_id).length,
        relevance_score := 0 },
    total_count := sorted.length, page := page, page_size := page_size,
    total_pages := np, has_next := decide (pg < np),
    has_previous := decide (1 < pg), query := "", search_type := "none",
    filters_applied := .empty }

/-- `_search_in_raw_assets` (lines 353-370); both branches of the
`search_type` test are the same `icontains` filter in the source. -/
def search_in_raw_assets (db : DB) (videos_qs : List VideoRow)
    (query : String) (search_type : String) : List VideoRow :=
  let raw0 := db.assets.filter fun a =>
    (videos_qs.any fun v => v.video_id = a.video_id) &&
    (a.kind = "clean_text" || a.kind = "timestamped")
  let raw :=
    if search_type = "exact" then
      raw0.filter fun a =>
        match a.content_text with
        | some t => containsCI t query
        | none => false
    else
      raw0.filter fun a =>
        match a.content_text with
        | some t => containsCI t query
        | none => false
  let ids := raw.map fun a => a.video_id
  videos_qs.filter fun v => ids.any fun i => i = v.video_id

/-- `_create_mock_segments_from_raw_assets` (lines 372-405): locate the
first case-insensitive occurrence of the query in the first clean-text
asset and cut a window from 100 characters before to 100 characters
after it; the mock carries id 0, start time 0 and duration 3. -/
def create_mock_segments (db : DB) (v : VideoRow) (query : String) :
    List ResultSegment :=
  match (db.assets.filter fun a => a.video_id = v.video_id ∧
      a.kind = "clean_text").head? with
  | none => []
  | some asset =>
    match asset.content_text with
    | none => []
    | some content =>
      if content = "" then []
      else
        match findSub (lowerL query.data) (lowerL content.data) with
        | none => []
        | some pos =>
          let cstart := pos - 100
          let cend := min content.data.length (pos + query.data.length + 100)
          [{ id := 0, start_time_s := 0, duration_s := 3,
             text := String.mk ((content.data.drop cstart).take (cend - cstart)),
             is_generated := v.is_generated, source := "raw_asset" }]

/-- `search_transcripts` (lines 20-136).  The Postgres tsvector match of
`_full_text_search` is not derivable from this repository, so that one
branch takes the matcher `ft` as a parameter; `exact` and `fuzzy` are
`icontains` filters.  `.distinct()` on `video_ids` is dropped: the list
is only tested for emptiness and membership. -/
def search_transcripts (db : DB) (user : Option Nat)
    (ft : String → String → Bool) (query : String) (search_type : String)
    (video_filters : Option VideoFilters) (time_range : Option (ℚ × ℚ))
    (language : Option String) (is_generated : Option Bool)
    (sort_by : String) (page : Int) (page_size : Nat) : SearchEnvelope :=
  let qs0 := base_queryset db user
  let qs1 := match video_filters with
    | some f => apply_video_filters qs0 f
    | none => qs0
  let qs2 := match language with
    | some lg =>
      if lg = "" then qs1 else qs1.filter fun v => v.language_code = some lg
    | none => qs1
  let videos_qs := match is_generated with
    | some b => qs2.filter fun v => v.is_generated = some b
    | none => qs2
  if pyStripS query = "" then
    get_video_results db videos_qs sort_by page page_size
  else
    let segs0 : List SegRow := db.segments.filter fun s =>
      videos_qs.any fun v => v.video_id = s.video_id
    let segs1 : List SegRow := match time_range with
      | some (st, en) =>
        segs0.filter fun s => st ≤ s.start_time_s ∧ s.start_time_s ≤ en
      | none => segs0
    let segments_qs : List SegRow :=
      if search_type = "full_text" then segs1.filter fun s => ft s.text query
      else if search_type = "exact" then
        segs1.filter fun s => containsCI s.text query
      else if search_type = "fuzzy" then
        segs1.filter fun s => containsCI s.text query
      else segs1
    let video_ids : List String := segments_qs.map fun s => s.video_id
    let matching1 : List VideoRow :=
      if video_ids = [] ∧ ¬ pyStripS query = "" then
        search_in_raw_assets db videos_qs query search_type
      else videos_qs.filter fun v => video_ids.any fun i => i = v.video_id
    let matching := apply_sorting matching1 sort_by query
    let np := numPages matching.length page_size
    let pg := pageClamp page np
    { results := (pageSlice matching pg page_size).map fun v =>
        let vsegs := sortByLt (fun b a => b.start_time_s < a.start_time_s)
          (segments_qs.filter fun s => s.video_id = v.video_id)
        let mocks :=
          if vsegs.length = 0 ∧ ¬ pyStripS query = "" then
            create_mock_segments db v query
          else []
        { video := v, chapters_count := (chaptersOf db v.video_id).length,
          segments_count := (segmentsOf db v.video_id).length,
          matching_segments := vsegs.map serializeSeg ++ mocks,
          total_segments :=
            if vsegs.length = 0 ∧ ¬ pyStripS query = "" then 1
            else vsegs.length,
          relevance_score := relevance_score v query },
      total_count := matching.length, page := page, page_size := page_size,
      total_pages := np, has_next := decide (pg < np),
      has_previous := decide (1 < pg), query := query,
      search_type := search_type,
      filters_applied := .applied (video_filters.getD {}) time_range
        language is_generated }

def assetFix : AssetRow :=
  { video_id := "v1", kind := "clean_text",
    content_text := some "hello world", content_json := none }

def dbAsset : DB :=
  { videos := [vidOwner1], chapters := [], segments := [],
    assets := [assetFix], seq := 0 }

/-! ## Theorems -/

/-! ### Character facts -/

theorem word_not_space {c : Char} (h : isWordChar c = true) : isPySpace c = false := by
  by_contra hs
  have hs' : isPySpace c = true := by
    cases h' : isPySpace c
    · exact absurd h' hs
    · rfl
  simp only [isPySpace, Bool.or_eq_true, decide_eq_true_eq] at hs'
  rcases hs' with ((((rfl | rfl) | rfl) | rfl) | rfl) | rfl <;> simp [isWordChar] at h

theorem isPySpace_ofNat_shift {n : Nat} (h1 : 65 ≤ n) (h2 : n ≤ 90) :
    isPySpace (Char.ofNat (n + 32)) = false := by
  interval_cases n <;> decide

theorem isPySpace_upper {c : Char} (h1 : 65 ≤ c.toNat) (h2 : c.toNat ≤ 90) :
    isPySpace c = false := by
  simp only [isPySpace, Bool.or_eq_false_iff, decide_eq_false_iff_not]
  refine ⟨⟨⟨⟨⟨?_, ?_⟩, ?_⟩, ?_⟩, ?_⟩, ?_⟩ <;> rintro rfl <;> simp_all

theorem isPySpace_toLower (c : Char) : isPySpace (Char.toLower c) = isPySpace c := by
  unfold Char.toLower
  by_cases h : c.toNat ≥ 65 ∧ c.toNat ≤ 90
  · simp only [if_pos h]
    rw [isPySpace_ofNat_shift h.1 h.2, isPySpace_upper h.1 h.2]
  · simp only [if_neg h]

theorem lower_eq_space_free {w v : List Char} (h : lowerL v = lowerL w)
    (hw : ∀ c ∈ w, isWordChar c = true) : ∀ c ∈ v, isPySpace c = false := by
  induction v generalizing w with
  | nil => intro c hc; cases hc
  | cons c cs ih =>
    cases w with
    | nil => simp [lowerL] at h
    | cons d ds =>
      simp only [lowerL, List.map_cons, List.cons.injEq] at h
      intro e he
      rcases List.mem_cons.mp he with rfl | he'
      · have hd : isPySpace d = false :=
          word_not_space (hw d (List.mem_cons_self d ds))
        calc isPySpace e = isPySpace (Char.toLower e) := (isPySpace_toLower e).symm
          _ = isPySpace (Char.toLower d) := by rw [h.1]
          _ = isPySpace d := isPySpace_toLower d
          _ = false := hd
      · exact ih (w := ds) h.2 (fun x hx => hw x (List.mem_cons_of_mem d hx)) e he'

/-! ### Whitespace-run facts -/

theorem wsOkRun_mono {s : List Char} (h : wsOkRun true s = true) :
    wsOkRun false s = true := by
  cases s with
  | nil => rfl
  | cons c cs =>
    simp only [wsOkRun] at h ⊢
    split at h
    · simp_all
    · simp_all [wsOkRun]

theorem wsOkRun_append_words {w : List Char} (z : List Char) (p : Bool)
    (hne : w ≠ []) (hw : ∀ c ∈ w, isPySpace c = false) :
    wsOkRun p (w ++ z) = wsOkRun false z := by
  induction w generalizing p with
  | nil => exact absurd rfl hne
  | cons c cs ih =>
    have hc : isPySpace c = false := hw c (List.mem_cons_self c cs)
    cases cs with
    | nil => simp only [List.cons_append, List.nil_append, wsOkRun, hc]; rfl
    | cons d ds =>
      simp only [List.cons_append, wsOkRun, hc]
      exact ih (p := false) (by simp) (fun x hx => hw x (List.mem_cons_of_mem c hx))

theorem wsOkRun_space_run {ws y : List Char} (hne : ws ≠ [])
    (hs : ∀ c ∈ ws, isPySpace c = true)
    (h : wsOkRun false (ws ++ y) = true) : ws = [' '] ∧ wsOkRun true y = true := by
  cases ws with
  | nil => exact absurd rfl hne
  | cons c cs =>
    have hc : isPySpace c = true := hs c (List.mem_cons_self c cs)
    simp only [List.cons_append, wsOkRun, hc, if_true, Bool.and_eq_true,
      decide_eq_true_eq] at h
    obtain ⟨⟨hc', -⟩, htail⟩ := h
    cases cs with
    | nil => exact ⟨by rw [hc'], by simpa using htail⟩
    | cons d ds =>
      have hd : isPySpace d = true := hs d (by simp)
      simp only [List.cons_append, wsOkRun, hd, if_true, Bool.and_eq_true] at htail
      simp at htail

theorem wsOkRun_collapseGo (s : List Char) :
    ∀ p, wsOkRun p (collapseGo p s) = true := by
  induction s with
  | nil => intro p; rfl
  | cons c cs ih =>
    intro p
    by_cases hc : isPySpace c = true
    · cases p with
      | true => simpa [collapseGo, hc] using ih true
      | false => simpa [collapseGo, hc, wsOkRun] using ih true
    · have hc' : isPySpace c = false := by simpa using hc
      simpa [collapseGo, hc', wsOkRun] using ih false

theorem collapseGo_id {s : List Char} :
    ∀ p, wsOkRun p s = true → collapseGo p s = s := by
  induction s with
  | nil => intro p _; rfl
  | cons c cs ih =>
    intro p h
    by_cases hc : isPySpace c = true
    · simp only [wsOkRun, hc, if_true, Bool.and_eq_true, decide_eq_true_eq] at h
      obtain ⟨⟨rfl, hp⟩, htail⟩ := h
      have hp' : p = false := by simpa using hp
      subst hp'
      simp only [collapseGo, hc, if_true, Bool.false_eq_true, if_false]
      rw [ih true htail]
    · have hc' : isPySpace c = false := by simpa using hc
      simp only [wsOkRun, hc', Bool.false_eq_true, if_false] at h
      simp only [collapseGo, hc', Bool.false_eq_true, if_false]
      rw [ih false h]

theorem wsOkRun_space_is_space {s : List Char} :
    ∀ p, wsOkRun p s = true → ∀ c ∈ s, isPySpace c = true → c = ' ' := by
  induction s with
  | nil => intro _ _ c hc; cases hc
  | cons d ds ih =>
    intro p h c hc hsp
    by_cases hd : isPySpace d = true
    · simp only [wsOkRun, hd, if_true, Bool.and_eq_true, decide_eq_true_eq] at h
      rcases List.mem_cons.mp hc with rfl | hc'
      · exact h.1.1
      · exact ih true h.2 c hc' hsp
    · have hd' : isPySpace d = false := by simpa using hd
      simp only [wsOkRun, hd', Bool.false_eq_true, if_false] at h
      rcases List.mem_cons.mp hc with rfl | hc'
      · rw [hd'] at hsp; cases hsp
      · exact ih false h c hc' hsp

theorem splitNlGo_no_nl {s : List Char} (h : ∀ c ∈ s, c ≠ '\n') :
    ∀ acc, splitNlGo acc s = [acc.reverse ++ s] := by
  induction s with
  | nil => intro acc; simp [splitNlGo]
  | cons c cs ih =>
    intro acc
    have hc : c ≠ '\n' := h c (List.mem_cons_self c cs)
    simp only [splitNlGo, if_neg hc]
    rw [ih (fun x hx => h x (List.mem_cons_of_mem c hx))]
    simp

theorem rstripL_cons (c : Char) (cs : List Char) :
    rstripL (c :: cs) =
      if rstripL cs = [] ∧ isPySpace c = true then [] else c :: rstripL cs := by
  simp only [rstripL]
  split
  · next hb =>
    rw [if_pos]
    simpa using hb
  · next hb =>
    rw [if_neg]
    simpa using hb

theorem lstripL_wsOk {s : List Char} (h : wsOkRun false s = true) :
    wsOkRun true (lstripL s) = true := by
  cases s with
  | nil => rfl
  | cons c cs =>
    by_cases hc : isPySpace c = true
    · simp only [wsOkRun, hc, if_true, Bool.and_eq_true, decide_eq_true_eq] at h
      obtain ⟨-, htail⟩ := h
      have hcs : cs.dropWhile isPySpace = cs := by
        cases cs with
        | nil => rfl
        | cons d ds =>
          by_cases hd : isPySpace d = true
          · simp only [wsOkRun, hd, if_true, Bool.and_eq_true] at htail
            simp at htail
          · rw [List.dropWhile_cons_of_neg (by simpa using hd)]
      simpa [lstripL, hc, hcs] using htail
    · have hc' : isPySpace c = false := by simpa using hc
      have hd : lstripL (c :: cs) = c :: cs := by
        simp only [lstripL]
        rw [List.dropWhile_cons_of_neg]
        simp [hc']
      rw [hd]
      simp only [wsOkRun, hc', Bool.false_eq_true, if_false] at h ⊢
      exact h

theorem lstripL_id {s : List Char} (h : wsOkRun true s = true) : lstripL s = s := by
  cases s with
  | nil => rfl
  | cons c cs =>
    by_cases hc : isPySpace c = true
    · simp [wsOkRun, hc] at h
    · simp [lstripL, List.dropWhile_cons_of_neg (by simpa using hc)]

theorem rstripL_wsOk {s : List Char} : ∀ p, wsOkRun p s = true →
    wsOkRun p (rstripL s) = true := by
  induction s with
  | nil => intro p _; rfl
  | cons c cs ih =>
    intro p h
    rw [rstripL_cons]
    split
    · rfl
    · by_cases hc : isPySpace c = true
      · simp only [wsOkRun, hc, if_true, Bool.and_eq_true, decide_eq_true_eq] at h
        obtain ⟨⟨hsp, hp⟩, htail⟩ := h
        simp only [wsOkRun, hc, if_true, Bool.and_eq_true, decide_eq_true_eq]
        exact ⟨⟨hsp, hp⟩, ih true htail⟩
      · have hc' : isPySpace c = false := by simpa using hc
        simp only [wsOkRun, hc', Bool.false_eq_true, if_false] at h ⊢
        exact ih false h

theorem rstripL_noTrail (s : List Char) : noTrailWs (rstripL s) = true := by
  induction s with
  | nil => rfl
  | cons c cs ih =>
    rw [rstripL_cons]
    split
    · rfl
    · next hcond =>
      cases hrs : rstripL cs with
      | nil =>
        have hc : isPySpace c = false := by
          cases h' : isPySpace c
          · rfl
          · exact absurd ⟨hrs, h'⟩ hcond
        simp [noTrailWs, hc]
      | cons d ds =>
        have : noTrailWs (d :: ds) = true := hrs ▸ ih
        simpa [noTrailWs, List.getLast?_cons_cons] using this

theorem rstripL_id {s : List Char} (h : noTrailWs s = true) : rstripL s = s := by
  induction s with
  | nil => rfl
  | cons c cs ih =>
    cases cs with
    | nil =>
      have hc : isPySpace c = false := by simpa [noTrailWs] using h
      rw [rstripL_cons]
      simp [hc, rstripL]
    | cons d ds =>
      have htail : noTrailWs (d :: ds) = true := by
        simpa [noTrailWs, List.getLast?_cons_cons] using h
      have hrs : rstripL (d :: ds) = d :: ds := ih htail
      rw [rstripL_cons, hrs]
      simp

theorem pyStrip_id {s : List Char} (h : wsNormal s = true) : pyStrip s = s := by
  simp only [wsNormal, Bool.and_eq_true] at h
  rw [pyStrip, lstripL_id h.1, rstripL_id h.2]

theorem pyStrip_wsNormal {s : List Char} (h : wsOkRun false s = true) :
    wsNormal (pyStrip s) = true := by
  simp only [wsNormal, Bool.and_eq_true, pyStrip]
  exact ⟨rstripL_wsOk true (lstripL_wsOk h), rstripL_noTrail _⟩

theorem wsPass_eq_strip_collapse (s : List Char) :
    wsPass s = pyStrip (collapseGo false s) := by
  have hok : wsOkRun false (collapseGo false s) = true := wsOkRun_collapseGo s false
  have hnl : ∀ c ∈ collapseGo false s, c ≠ '\n' := by
    intro c hc hceq
    subst hceq
    have := wsOkRun_space_is_space false hok '\n' hc (by decide)
    cases this
  rw [wsPass, splitNlGo_no_nl hnl]
  simp [List.intercalate]

theorem wsNormal_wsPass (s : List Char) : wsNormal (wsPass s) = true := by
  rw [wsPass_eq_strip_collapse]
  exact pyStrip_wsNormal (wsOkRun_collapseGo s false)

theorem wsPass_id {s : List Char} (h : wsNormal s = true) : wsPass s = s := by
  have h1 : wsOkRun true s = true := (Bool.and_eq_true .. ▸ h).1
  rw [wsPass_eq_strip_collapse, collapseGo_id false (wsOkRun_mono h1), pyStrip_id h]

/-! ### Structure of duplicate-word and dash-duplicate matches -/

theorem dupMatch_eq {s w1 rest : List Char} (h : dupMatch s = some (w1, rest)) :
    ∃ ws w2, s = w1 ++ ws ++ w2 ++ rest ∧ w1 ≠ [] ∧
      (∀ c ∈ w1, isWordChar c = true) ∧ ws ≠ [] ∧
      (∀ c ∈ ws, isPySpace c = true) ∧ lowerL w2 = lowerL w1 := by
  simp only [dupMatch] at h
  split at h
  · exact absurd h (by simp)
  · next hw1 =>
    split at h
    · exact absurd h (by simp)
    · next hws =>
      split at h
      · next hcond =>
        simp only [Option.some.injEq, Prod.mk.injEq] at h
        obtain ⟨rfl, rfl⟩ := h
        simp only [Bool.and_eq_true, decide_eq_true_eq] at hcond
        refine ⟨(s.dropWhile isWordChar).takeWhile isPySpace,
          ((s.dropWhile isWordChar).dropWhile isPySpace).take
            (s.takeWhile isWordChar).length, ?_, hw1, ?_, hws, ?_, hcond.1⟩
        · simp only [List.append_assoc]
          rw [List.take_append_drop, List.takeWhile_append_dropWhile,
            List.takeWhile_append_dropWhile]
        · intro c hc; exact List.mem_takeWhile_imp hc
        · intro c hc; exact List.mem_takeWhile_imp hc
      · exact absurd h (by simp)

theorem dashMatch_eq {s w1 rest : List Char} (h : dashMatch s = some (w1, rest)) :
    ∃ ws1 ws2, s = w1 ++ ws1 ++ '-' :: (ws2 ++ (w1 ++ rest)) ∧ w1 ≠ [] ∧
      (∀ c ∈ w1, isWordChar c = true) ∧
      (∀ c ∈ ws1, isPySpace c = true) ∧ (∀ c ∈ ws2, isPySpace c = true) := by
  simp only [dashMatch] at h
  split at h
  · exact absurd h (by simp)
  · next hw1 =>
    split at h
    · next r3 hr2 =>
      split at h
      · next hcond =>
        simp only [Option.some.injEq, Prod.mk.injEq] at h
        obtain ⟨rfl, rfl⟩ := h
        simp only [Bool.and_eq_true, decide_eq_true_eq] at hcond
        refine ⟨(s.dropWhile isWordChar).takeWhile isPySpace,
          r3.takeWhile isPySpace, ?_, hw1, ?_, ?_, ?_⟩
        · have hmid : r3 = r3.takeWhile isPySpace ++ (s.takeWhile isWordChar ++
              ((r3.dropWhile isPySpace).drop (s.takeWhile isWordChar).length)) := by
            conv_lhs => rw [← List.takeWhile_append_dropWhile isPySpace r3,
              ← List.take_append_drop (s.takeWhile isWordChar).length
                (r3.dropWhile isPySpace)]
            rw [hcond.1]
          simp only [List.append_assoc]
          rw [← hmid, ← hr2, List.takeWhile_append_dropWhile,
            List.takeWhile_append_dropWhile]
        · intro c hc; exact List.mem_takeWhile_imp hc
        · intro c hc; exact List.mem_takeWhile_imp hc
        · intro c hc; exact List.mem_takeWhile_imp hc
      · exact absurd h (by simp)
    · exact absurd h (by simp)

/-! ### The artifact passes preserve collapsed whitespace -/

theorem wsOkRun_dash_cons (q : Bool) (z : List Char) :
    wsOkRun q ('-' :: z) = wsOkRun false z := by
  simp [wsOkRun, isPySpace]

theorem wsOk_dedupGo : ∀ fuel prevW p (s : List Char),
    wsOkRun p s = true → wsOkRun p (dedupGo fuel prevW s) = true := by
  intro fuel
  induction fuel with
  | zero => intro prevW p s h; exact h
  | succ fuel ih =>
    intro prevW p s h
    cases s with
    | nil => rfl
    | cons c cs =>
      cases hm : (if prevW then none else dupMatch (c :: cs)) with
      | none =>
        simp only [dedupGo, hm]
        by_cases hc : isPySpace c = true
        · simp only [wsOkRun, hc, if_true, Bool.and_eq_true, decide_eq_true_eq] at h ⊢
          exact ⟨h.1, ih (isWordChar c) true cs h.2⟩
        · have hc' : isPySpace c = false := by simpa using hc
          simp only [wsOkRun, hc', Bool.false_eq_true, if_false] at h ⊢
          exact ih (isWordChar c) false cs h
      | some pr =>
        obtain ⟨w1, rest⟩ := pr
        have hdm : dupMatch (c :: cs) = some (w1, rest) := by
          by_cases hp : prevW = true
          · rw [hp] at hm; simp at hm
          · have : prevW = false := by simpa using hp
            rw [this] at hm; simpa using hm
        simp only [dedupGo, hm]
        obtain ⟨ws, w2, hs, hw1ne, hw1w, hwsne, hwssp, hlow⟩ := dupMatch_eq hdm
        have hw1sp : ∀ x ∈ w1, isPySpace x = false :=
          fun x hx => word_not_space (hw1w x hx)
        have hw2sp : ∀ x ∈ w2, isPySpace x = false :=
          lower_eq_space_free hlow hw1w
        have hw2ne : w2 ≠ [] := by
          intro hw2
          apply hw1ne
          have := congrArg List.length hlow
          simp [hw2, lowerL] at this
          exact List.eq_nil_of_length_eq_zero this.symm
        rw [hs] at h
        rw [List.append_assoc, List.append_assoc] at h
        rw [wsOkRun_append_words _ p hw1ne hw1sp] at h
        obtain ⟨-, h2⟩ := wsOkRun_space_run hwsne hwssp h
        rw [wsOkRun_append_words _ true hw2ne hw2sp] at h2
        rw [wsOkRun_append_words _ p hw1ne hw1sp]
        exact ih true false rest h2

theorem wsOk_dashGo : ∀ fuel prevW p (s : List Char),
    wsOkRun p s = true → wsOkRun p (dashGo fuel prevW s) = true := by
  intro fuel
  induction fuel with
  | zero => intro prevW p s h; exact h
  | succ fuel ih =>
    intro prevW p s h
    cases s with
    | nil => rfl
    | cons c cs =>
      cases hm : (if prevW then none else dashMatch (c :: cs)) with
      | none =>
        simp only [dashGo, hm]
        by_cases hc : isPySpace c = true
        · simp only [wsOkRun, hc, if_true, Bool.and_eq_true, decide_eq_true_eq] at h ⊢
          exact ⟨h.1, ih (isWordChar c) true cs h.2⟩
        · have hc' : isPySpace c = false := by simpa using hc
          simp only [wsOkRun, hc', Bool.false_eq_true, if_false] at h ⊢
          exact ih (isWordChar c) false cs h
      | some pr =>
        obtain ⟨w1, rest⟩ := pr
        have hdm : dashMatch (c :: cs) = some (w1, rest) := by
          by_cases hp : prevW = true
          · rw [hp] at hm; simp at hm
          · have : prevW = false := by simpa using hp
            rw [this] at hm; simpa using hm
        simp only [dashGo, hm]
        obtain ⟨ws1, ws2, hs, hw1ne, hw1w, hws1sp, hws2sp⟩ := dashMatch_eq hdm
        have hw1sp : ∀ x ∈ w1, isPySpace x = false :=
          fun x hx => word_not_space (hw1w x hx)
        rw [hs] at h
        rw [List.append_assoc] at h
        rw [wsOkRun_append_words _ p hw1ne hw1sp] at h
        have hz : wsOkRun false (ws2 ++ (w1 ++ rest)) = true := by
          cases hws1 : ws1 with
          | nil =>
            rw [hws1] at h
            simpa [wsOkRun_dash_cons] using h
          | cons a as =>
            rw [hws1] at h
            obtain ⟨-, h2⟩ := wsOkRun_space_run (by simp) (hws1 ▸ hws1sp) h
            rw [wsOkRun_dash_cons] at h2
            exact h2
        have hrest : wsOkRun false rest = true := by
          cases hws2 : ws2 with
          | nil =>
            rw [hws2] at hz
            rwa [List.nil_append, wsOkRun_append_words _ false hw1ne hw1sp] at hz
          | cons a as =>
            rw [hws2] at hz
            obtain ⟨-, h2⟩ := wsOkRun_space_run (by simp) (hws2 ▸ hws2sp) hz
            rwa [wsOkRun_append_words _ true hw1ne hw1sp] at h2
        rw [wsOkRun_append_words _ p hw1ne hw1sp]
        exact ih true false rest hrest

theorem wsNormal_clean_text (s : List Char) : wsNormal (clean_text s) = true := by
  have h0 : wsNormal (wsPass (fillerPass s)) = true := wsNormal_wsPass _
  have h1 : wsOkRun false (wsPass (fillerPass s)) = true :=
    wsOkRun_mono (Bool.and_eq_true .. ▸ h0).1
  have h2 : wsOkRun false (dedupPass (wsPass (fillerPass s))) = true :=
    wsOk_dedupGo _ false false _ h1
  have h3 : wsOkRun false (dashPass (dedupPass (wsPass (fillerPass s)))) = true :=
    wsOk_dashGo _ false false _ h2
  exact pyStrip_wsNormal h3

/-! ### The scanners are the identity when their pattern has no occurrence -/

theorem fillerGo_id : ∀ fuel prevW (s : List Char),
    hasFillerAux prevW s = false → fillerGo fuel prevW s = s := by
  intro fuel
  induction fuel with
  | zero => intro prevW s _; rfl
  | succ fuel ih =>
    intro prevW s h
    cases s with
    | nil => rfl
    | cons c cs =>
      simp only [hasFillerAux, Bool.or_eq_false_iff, Bool.and_eq_false_iff] at h
      have hm : (if prevW then none else matchFiller (c :: cs)) = none := by
        cases prevW with
        | true => rfl
        | false =>
          rcases h.1 with h' | h'
          · simp at h'
          · simp only [Bool.false_eq_true, if_false]
            exact Option.not_isSome_iff_eq_none.mp (by simp [h'])
      simp only [fillerGo, hm]
      rw [ih (isWordChar c) cs h.2]

theorem dedupGo_id : ∀ fuel prevW (s : List Char),
    hasDupAux prevW s = false → dedupGo fuel prevW s = s := by
  intro fuel
  induction fuel with
  | zero => intro prevW s _; rfl
  | succ fuel ih =>
    intro prevW s h
    cases s with
    | nil => rfl
    | cons c cs =>
      simp only [hasDupAux, Bool.or_eq_false_iff, Bool.and_eq_false_iff] at h
      have hm : (if prevW then none else dupMatch (c :: cs)) = none := by
        cases prevW with
        | true => rfl
        | false =>
          rcases h.1 with h' | h'
          · simp at h'
          · simp only [Bool.false_eq_true, if_false]
            exact Option.not_isSome_iff_eq_none.mp (by simp [h'])
      simp only [dedupGo, hm]
      rw [ih (isWordChar c) cs h.2]

theorem dashGo_id : ∀ fuel prevW (s : List Char),
    hasDashAux prevW s = false → dashGo fuel prevW s = s := by
  intro fuel
  induction fuel with
  | zero => intro prevW s _; rfl
  | succ fuel ih =>
    intro prevW s h
    cases s with
    | nil => rfl
    | cons c cs =>
      simp only [hasDashAux, Bool.or_eq_false_iff, Bool.and_eq_false_iff] at h
      have hm : (if prevW then none else dashMatch (c :: cs)) = none := by
        cases prevW with
        | true => rfl
        | false =>
          rcases h.1 with h' | h'
          · simp at h'
          · simp only [Bool.false_eq_true, if_false]
            exact Option.not_isSome_iff_eq_none.mp (by simp [h'])
      simp only [dashGo, hm]
      rw [ih (isWordChar c) cs h.2]

theorem fillerPass_id {s : List Char} (h : fillerFree s = true) :
    fillerPass s = s :=
  fillerGo_id _ false s (by simpa [fillerFree] using h)

theorem dedupPass_id {s : List Char} (h : dupFree s = true) :
    dedupPass s = s :=
  dedupGo_id _ false s (by simpa [dupFree] using h)

theorem dashPass_id {s : List Char} (h : dashFree s = true) :
    dashPass s = s :=
  dashGo_id _ false s (by simpa [dashFree] using h)

/-- C3 counterexample: the cleaning pipeline is not idempotent.  The
repeated-word substitution is a single non-overlapping pass, so
`"the the the"` cleans to `"the the"`, which a second cleaning collapses
further to `"the"`. -/
theorem clean_text_not_idempotent :
    clean_text (clean_text "the the the".data) ≠ clean_text "the the the".data := by
  decide

/-- C3 (amended): cleaning is idempotent exactly on inputs whose cleaned
output is free of filler words, repeated-word patterns and dash-joined
duplicate patterns; cleaning itself can introduce such patterns (see the
counterexample), in which case a second clean changes the text.  The
whitespace-normalization and final-strip steps never obstruct idempotence:
cleaned output is always whitespace-normal and stripped. -/
theorem clean_text_idem_of_clean_output (t : List Char)
    (h1 : fillerFree (clean_text t) = true)
    (h2 : dupFree (clean_text t) = true)
    (h3 : dashFree (clean_text t) = true) :
    clean_text (clean_text t) = clean_text t := by
  have hn : wsNormal (clean_text t) = true := wsNormal_clean_text t
  show pyStrip (dashPass (dedupPass (wsPass (fillerPass (clean_text t))))) =
    clean_text t
  rw [fillerPass_id h1, wsPass_id hn, dedupPass_id h2, dashPass_id h3,
    pyStrip_id hn]

/-- C3 witness: a concrete input satisfying the amended theorem's
hypotheses. -/
theorem clean_text_idem_witness :
    fillerFree (clean_text "hello there world".data) = true ∧
    dupFree (clean_text "hello there world".data) = true ∧
    dashFree (clean_text "hello there world".data) = true ∧
    clean_text (clean_text "hello there world".data) =
      clean_text "hello there world".data :=
  ⟨by decide, by decide, by decide,
    clean_text_idem_of_clean_output _ (by decide) (by decide) (by decide)⟩

/-! ### Chapter detection: final-snippet closure -/

theorem detectGo_cons (minGap minLen chStart : ℚ) (acc : List String)
    (e : Snip) (rest : List Snip) :
    detectGo minGap minLen chStart acc (e :: rest) =
      match startF e.start with
      | none => detectGo minGap minLen chStart acc rest
      | some st =>
        let acc' := acc ++ [e.text]
        let isBreak : Bool :=
          match rest with
          | [] => true
          | e2 :: _ =>
            match startF e2.start with
            | none => false
            | some st2 => decide (st2 - st ≥ minGap ∧ st - chStart ≥ minLen)
        if isBreak ∧ st - chStart ≥ minLen then
          let r := detectGo minGap minLen st [] rest
          (mkChapter chStart st acc' :: r.1, r.2)
        else
          detectGo minGap minLen chStart acc' rest := rfl

theorem detectGo_final (minGap minLen : ℚ) :
    ∀ (snips : List Snip) (chStart : ℚ) (acc : List String) (eL : Snip) (qL : ℚ),
      (∀ x ∈ snips, (startF x.start).isSome = true) →
      snips.getLast? = some eL → startF eL.start = some qL →
      ((detectGo minGap minLen chStart acc snips).2.2 = [] ∧
        (detectGo minGap minLen chStart acc snips).2.1 = qL ∧
        ∃ ch, (detectGo minGap minLen chStart acc snips).1.getLast? = some ch ∧
          ch.end_time = qL) ∨
      ((detectGo minGap minLen chStart acc snips).2.2 ≠ [] ∧
        eL.text ∈ (detectGo minGap minLen chStart acc snips).2.2 ∧
        qL - (detectGo minGap minLen chStart acc snips).2.1 < minLen) := by
  intro snips
  induction snips with
  | nil => intro _ _ _ _ _ hlast _; cases hlast
  | cons e rest ih =>
    intro chStart acc eL qL hnum hlast hq
    have he : (startF e.start).isSome = true := hnum e (by simp)
    obtain ⟨st, hst⟩ := Option.isSome_iff_exists.mp he
    cases rest with
    | nil =>
      have heL : e = eL := by simpa using hlast
      subst heL
      rw [hst] at hq
      have hqs : st = qL := Option.some.inj hq
      subst hqs
      rw [detectGo_cons, hst]
      dsimp only
      by_cases hcond : st - chStart ≥ minLen
      · rw [if_pos ⟨rfl, hcond⟩]
        exact Or.inl ⟨rfl, rfl, mkChapter chStart st (acc ++ [e.text]), rfl, rfl⟩
      · rw [if_neg (fun hc => hcond hc.2)]
        simp only [detectGo]
        exact Or.inr ⟨by simp, by simp, lt_of_not_ge hcond⟩
    | cons e2 rest2 =>
      have hlast' : (e2 :: rest2).getLast? = some eL := by
        rw [List.getLast?_cons_cons] at hlast
        exact hlast
      have hnum' : ∀ x ∈ e2 :: rest2, (startF x.start).isSome = true :=
        fun x hx => hnum x (List.mem_cons_of_mem e hx)
      rw [detectGo_cons, hst]
      dsimp only
      by_cases hcond : (match startF e2.start with
          | none => false
          | some st2 => decide (st2 - st ≥ minGap ∧ st - chStart ≥ minLen)) = true ∧
          st - chStart ≥ minLen
      · rw [if_pos hcond]
        rcases ih st [] eL qL hnum' hlast' hq with hL | hR
        · left
          obtain ⟨h1, h2, ch, hch, hche⟩ := hL
          refine ⟨h1, h2, ch, ?_, hche⟩
          cases hr1 : (detectGo minGap minLen st [] (e2 :: rest2)).1 with
          | nil => rw [hr1] at hch; cases hch
          | cons a as =>
            rw [hr1] at hch
            simpa using hch
        · exact Or.inr hR
      · rw [if_neg hcond]
        exact ih chStart (acc ++ [e.text]) eL qL hnum' hlast' hq

/-- C4 counterexample: a single snippet whose span is below
`min_chapter_seconds` produces no chapter at all — the final snippet does
not force a closure and its text is silently discarded, not merged. -/
theorem detect_chapters_drops_short_tail :
    detect_chapters 3 30 [⟨.num 0, "hello"⟩] = [] ∧
    (detectGo 3 30 0 [] [⟨.num 0, "hello"⟩]).2.2 = ["hello"] := by
  have hc : ¬ ((0 : ℚ) - 0 ≥ 30) := by norm_num
  rw [detect_chapters, detectGo_cons]
  dsimp only [startF]
  rw [if_neg (fun hp => hc hp.2)]
  exact ⟨rfl, rfl⟩

/-- C4 (amended): for every non-empty snippet list with numeric start
times, either a chapter is closed exactly at the final snippet (the
accumulator is flushed empty and the last emitted chapter ends at the
final start time), or — precisely when the span from the accumulating
chapter's start to the final snippet is below `min_chapter_seconds` — no
chapter covers the tail and the final snippet's text stays in the dropped
accumulator. -/
theorem detect_chapters_closure_or_dropped (minGap minLen : ℚ)
    (snips : List Snip) (eL : Snip) (qL : ℚ)
    (hnum : ∀ x ∈ snips, (startF x.start).isSome = true)
    (hlast : snips.getLast? = some eL) (hq : startF eL.start = some qL) :
    ((detectGo minGap minLen 0 [] snips).2.2 = [] ∧
      ∃ ch, (detect_chapters minGap minLen snips).getLast? = some ch ∧
        ch.end_time = qL) ∨
    ((detectGo minGap minLen 0 [] snips).2.2 ≠ [] ∧
      eL.text ∈ (detectGo minGap minLen 0 [] snips).2.2 ∧
      qL - (detectGo minGap minLen 0 [] snips).2.1 < minLen) := by
  rcases detectGo_final minGap minLen snips 0 [] eL qL hnum hlast hq with hL | hR
  · exact Or.inl ⟨hL.1, hL.2.2⟩
  · exact Or.inr hR

/-- C4 witness: the amended closure dichotomy applied to a concrete
two-snippet input. -/
theorem detect_chapters_closure_witness :
    ((detectGo 3 30 0 [] [⟨.num 0, "a"⟩, ⟨.num 40, "b"⟩]).2.2 = [] ∧
      ∃ ch, (detect_chapters 3 30 [⟨.num 0, "a"⟩, ⟨.num 40, "b"⟩]).getLast? =
          some ch ∧ ch.end_time = 40) ∨
    ((detectGo 3 30 0 [] [⟨.num 0, "a"⟩, ⟨.num 40, "b"⟩]).2.2 ≠ [] ∧
      (Snip.mk (.num 40) "b").text ∈
        (detectGo 3 30 0 [] [⟨.num 0, "a"⟩, ⟨.num 40, "b"⟩]).2.2 ∧
      40 - (detectGo 3 30 0 [] [⟨.num 0, "a"⟩, ⟨.num 40, "b"⟩]).2.1 < 30) :=
  detect_chapters_closure_or_dropped 3 30 [⟨.num 0, "a"⟩, ⟨.num 40, "b"⟩]
    ⟨.num 40, "b"⟩ 40 (by decide) (by decide) (by decide)

/-! ### Date parsing and analyzer totality -/

/-- C5: `parse_upload_date` is not total.  An 8-digit digit string that is
not a valid calendar date ("20250230", February 30th) reaches
`datetime.strptime` outside the `try` block and raises `ValueError`,
contradicting the null-on-unparseable contract; valid 8-digit strings, ISO
strings, falsy values and unparseable non-8-digit strings all behave as
specified. -/
theorem parse_upload_date_raises_on_invalid_ymd :
    parse_upload_date (.vStr "20250230") = .error .valueError ∧
    parse_upload_date (.vStr "20250130") = .ok (some ⟨2025, 1, 30⟩) ∧
    parse_upload_date (.vStr "2025-01-30") = .ok (some ⟨2025, 1, 30⟩) ∧
    parse_upload_date (.vStr "not a date") = .ok none ∧
    parse_upload_date (.vStr "") = .ok none ∧
    parse_upload_date .vNone = .ok none := by
  decide

/-- C7: content analysis is not exception-free.  A snippet list whose
entries all have empty text drives `max(entry_lengths)` to zero and the
`entry_consistency` expression raises `ZeroDivisionError` out of the
analyzer; the empty list itself is handled (empty dict). -/
theorem analyze_raises_on_all_empty_text :
    analyze_transcript_content [⟨.missing, ""⟩] = .error .zeroDivisionError ∧
    analyze_transcript_content [] = .ok none := by
  decide

/-! ### Quality score: formula, bands and the repeated-artifact floor -/

/-- C6 counterexample: the score is bucketed into six bands, not five —
the six sample scores 95, 85, 75, 65, 55, 45 hit six pairwise-distinct
categories. -/
theorem categorize_quality_six_bands :
    ([(95 : ℚ), 85, 75, 65, 55, 45].map categorize_quality) =
      ["Excellent", "Very Good", "Good", "Fair", "Poor", "Very Poor"] ∧
    (["Excellent", "Very Good", "Good", "Fair", "Poor", "Very Poor"] :
      List String).Nodup := by
  decide

theorem countSubF_mono (p : List Char) : ∀ (f1 : ℕ), ∀ (f2 : ℕ) (s : List Char),
    s.length ≤ f1 → s.length ≤ f2 → countSubF p f1 s = countSubF p f2 s := by
  intro f1
  induction f1 with
  | zero =>
    intro f2 s h1 _
    have : s = [] := List.eq_nil_of_length_eq_zero (Nat.le_zero.mp h1)
    subst this
    cases f2 <;> rfl
  | succ f1 ih =>
    intro f2 s h1 h2
    cases s with
    | nil => cases f2 <;> rfl
    | cons c cs =>
      cases f2 with
      | zero => simp at h2
      | succ f2 =>
        simp only [countSubF]
        simp only [List.length_cons, Nat.succ_le_succ_iff] at h1 h2
        split
        · have hd : (cs.drop (p.length - 1)).length ≤ cs.length := by
            simp [List.length_drop]
          rw [ih f2 _ (le_trans hd h1) (le_trans hd h2)]
        · rw [ih f2 cs h1 h2]

theorem countSub_eq_fuel (p s : List Char) (f : ℕ) (h : s.length ≤ f) :
    countSub p s = countSubF p f s :=
  countSubF_mono p s.length f s le_rfl h

/-- Scanning the block `"[music] "` adds one `"[music]"` occurrence. -/
theorem countSub_music_step (r : List Char) :
    countSub "[music]".data ("[music]".data ++ ' ' :: r) =
      1 + countSub "[music]".data r := by
  have h : countSub "[music]".data ("[music]".data ++ ' ' :: r) =
      1 + countSubF "[music]".data (r.length + 6) r := rfl
  rw [h, countSub_eq_fuel "[music]".data r (r.length + 6) (by omega)]

/-- The per-block artifact-count step: exactly the `"[music]"` pattern
matches once in the block, all other artifact patterns match nowhere. -/
theorem artifact_sum_step (r : List Char) :
    (artifactsList.map fun a =>
        countSub (lowerL a.data) ("[music]".data ++ ' ' :: r)).sum =
      1 + (artifactsList.map fun a => countSub (lowerL a.data) r).sum := by
  have h1 := countSub_music_step r
  have h2 : countSub (lowerL "[Applause]".data) ("[music]".data ++ ' ' :: r) =
      countSub (lowerL "[Applause]".data) r := rfl
  have h3 : countSub (lowerL "[Laughter]".data) ("[music]".data ++ ' ' :: r) =
      countSub (lowerL "[Laughter]".data) r := rfl
  have h4 : countSub (lowerL "[Noise]".data) ("[music]".data ++ ' ' :: r) =
      countSub (lowerL "[Noise]".data) r := rfl
  have h5 : countSub (lowerL "[Inaudible]".data) ("[music]".data ++ ' ' :: r) =
      countSub (lowerL "[Inaudible]".data) r := rfl
  have h6 : countSub (lowerL "um".data) ("[music]".data ++ ' ' :: r) =
      countSub (lowerL "um".data) r := rfl
  have h7 : countSub (lowerL "uh".data) ("[music]".data ++ ' ' :: r) =
      countSub (lowerL "uh".data) r := rfl
  have h8 : countSub (lowerL "er".data) ("[music]".data ++ ' ' :: r) =
      countSub (lowerL "er".data) r := rfl
  have h9 : countSub (lowerL "ah".data) ("[music]".data ++ ' ' :: r) =
      countSub (lowerL "ah".data) r := rfl
  have h10 : countSub (lowerL "...".data) ("[music]".data ++ ' ' :: r) =
      countSub (lowerL "...".data) r := rfl
  have h11 : countSub (lowerL "--".data) ("[music]".data ++ ' ' :: r) =
      countSub (lowerL "--".data) r := rfl
  have hm : lowerL "[Music]".data = "[music]".data := rfl
  simp only [artifactsList, List.map_cons, List.map_nil, List.sum_cons,
    List.sum_nil, hm, h1, h2, h3, h4, h5, h6, h7, h8, h9, h10, h11]
  omega

/-- The per-block incompleteness-count step: `"["` and `"]"` each match
once in the block, the other indicators match nowhere. -/
theorem incomplete_sum_step (r : List Char) :
    (incompleteList.map fun a =>
        countSub a.data ("[music]".data ++ ' ' :: r)).sum =
      2 + (incompleteList.map fun a => countSub a.data r).sum := by
  have h1 : countSub "[".data ("[music]".data ++ ' ' :: r) =
      1 + countSub "[".data r := rfl
  have h2 : countSub "]".data ("[music]".data ++ ' ' :: r) =
      1 + countSub "]".data r := rfl
  have h3 : countSub "...".data ("[music]".data ++ ' ' :: r) =
      countSub "...".data r := rfl
  have h4 : countSub "--".data ("[music]".data ++ ' ' :: r) =
      countSub "--".data r := rfl
  have h5 : countSub "inaudible".data ("[music]".data ++ ' ' :: r) =
      countSub "inaudible".data r := rfl
  have h6 : countSub "unclear".data ("[music]".data ++ ' ' :: r) =
      countSub "unclear".data r := rfl
  simp only [incompleteList, List.map_cons, List.map_nil, List.sum_cons,
    List.sum_nil, h1, h2, h3, h4, h5, h6]
  omega

/-- Splitting off one `"[Music]"` word per block. -/
theorem splitWs_music_step (r : List Char) :
    splitWsGo [] ("[Music]".data ++ ' ' :: r) =
      "[Music]".data :: splitWsGo [] r := rfl

theorem joinSp_replicate_succ (w : List Char) (n : ℕ) :
    joinSp (List.replicate (n + 2) w) = w ++ ' ' :: joinSp (List.replicate (n + 1) w) := by
  show List.intercalate [' '] (w :: w :: List.replicate n w) = _
  simp [joinSp, List.intercalate, List.intersperse, List.replicate_succ]

theorem lowerL_joinSp_music (n : ℕ) :
    lowerL (joinSp (List.replicate (n + 2) "[Music]".data)) =
      "[music]".data ++ ' ' ::
        lowerL (joinSp (List.replicate (n + 1) "[Music]".data)) := by
  rw [joinSp_replicate_succ]
  show List.map Char.toLower _ = _
  rw [List.map_append, List.map_cons]
  rfl

theorem artifact_sum_music (n : ℕ) :
    (artifactsList.map fun a =>
        countSub (lowerL a.data)
          (lowerL (joinSp (List.replicate (n + 1) "[Music]".data)))).sum = n + 1 := by
  induction n with
  | zero => decide
  | succ n ih =>
    rw [lowerL_joinSp_music, artifact_sum_step, ih]
    omega

theorem incomplete_sum_music (n : ℕ) :
    (incompleteList.map fun a =>
        countSub a.data
          (lowerL (joinSp (List.replicate (n + 1) "[Music]".data)))).sum =
      2 * (n + 1) := by
  induction n with
  | zero => decide
  | succ n ih =>
    rw [lowerL_joinSp_music, incomplete_sum_step, ih]
    omega

theorem splitWs_music (n : ℕ) :
    splitWs (joinSp (List.replicate (n + 1) "[Music]".data)) =
      List.replicate (n + 1) "[Music]".data := by
  induction n with
  | zero => decide
  | succ n ih =>
    rw [splitWs, joinSp_replicate_succ, splitWs_music_step]
    rw [splitWs] at ih
    rw [ih]
    rfl

theorem max_replicate_succ {α : Type} [LinearOrder α] (n : ℕ) (k : α) :
    (List.replicate (n + 1) k).max? = some k := by
  induction n with
  | zero => rfl
  | succ n ih =>
    rw [List.replicate_succ, List.max?_cons, ih]
    simp

theorem pyRound_zero (n : ℕ) : pyRound 0 n = 0 := by
  rw [pyRound, roundHalfEven]
  norm_num

theorem max_eq_clamp (ar ir : ℚ) (har : 0 ≤ ar) (hir : 0 ≤ ir) :
    max 0 (100 - ar * 100 - ir * 50) =
      clamp 0 100 (100 - ar * 100 - ir * 50) := by
  rw [clamp, min_eq_right]
  apply max_le (by norm_num)
  nlinarith

theorem categorize_eq_spec (q : ℚ) : categorize_quality q = specCategorize q := by
  rw [categorize_quality, specCategorize, specBands]
  by_cases h90 : q ≥ 90
  · simp [List.find?, h90]
  · by_cases h80 : q ≥ 80
    · simp [List.find?, h90, h80]
    · by_cases h70 : q ≥ 70
      · simp [List.find?, h90, h80, h70]
      · by_cases h60 : q ≥ 60
        · simp [List.find?, h90, h80, h70, h60]
        · by_cases h50 : q ≥ 50
          · simp [List.find?, h90, h80, h70, h60, h50]
          · simp [List.find?, h90, h80, h70, h60, h50]

theorem assess_music (n : ℕ) :
    ∃ r : QualityResult,
      assess_content_quality (joinSp (List.replicate (n + 1) "[Music]".data))
        (List.replicate (n + 1) ⟨.missing, "[Music]"⟩) = .ok r ∧
      r.quality_score = 0 ∧ r.quality_category = "Very Poor" := by
  have hwords := splitWs_music n
  have hart := artifact_sum_music n
  have hinc := incomplete_sum_music n
  have hne : ((n + 1 : ℕ) : ℚ) ≠ 0 := by positivity
  have hrat1 : ((n + 1 : ℕ) : ℚ) / ((n + 1 : ℕ) : ℚ) = 1 := div_self hne
  have hrat2 : ((2 * (n + 1) : ℕ) : ℚ) / ((n + 1 : ℕ) : ℚ) = 2 := by
    push_cast
    field_simp
  have hmax0 : (0 : ℚ) ⊔ (100 - 1 * 100 - 2 * 50) = 0 := by norm_num
  simp only [assess_content_quality]
  rw [hwords, hart, hinc]
  simp only [List.map_replicate, List.length_replicate, List.replicate_eq_nil_iff,
    Nat.succ_ne_zero, Nat.add_one_ne_zero, if_false, ne_eq, not_false_iff,
    if_true]
  rw [hrat1, hrat2]
  have hlen : ("[Music]" : String).length = 7 := rfl
  rw [hlen]
  rw [max_replicate_succ]
  simp only [hmax0, Option.getD_some]
  rw [if_neg (by norm_num)]
  exact ⟨_, rfl, pyRound_zero 1, by norm_num [categorize_quality]⟩

/-- C6 (amended): the quality score is the clamp formula (the upper clamp
at 100 never binds because the ratios are non-negative, so the source's
`max(0, ...)` equals `clamp(0, 100, ...)`), the category is bucketed by
score into *six* bands — Excellent (≥90), Very Good (≥80), Good (≥70),
Fair (≥60), Poor (≥50) and Very Poor (<50) — matching the threshold-table
reading of the spec, and a transcript consisting entirely of repeated
`"[Music]"` tokens scores exactly 0 with category "Very Poor". -/
theorem quality_clamp_bands_and_music_floor :
    (∀ ar ir : ℚ, 0 ≤ ar → 0 ≤ ir →
      max 0 (100 - ar * 100 - ir * 50) =
        clamp 0 100 (100 - ar * 100 - ir * 50)) ∧
    (∀ q : ℚ, categorize_quality q = specCategorize q) ∧
    (∀ n : ℕ, ∃ r : QualityResult,
      assess_content_quality (joinSp (List.replicate (n + 1) "[Music]".data))
        (List.replicate (n + 1) ⟨.missing, "[Music]"⟩) = .ok r ∧
      r.quality_score = 0 ∧ r.quality_category = "Very Poor") :=
  ⟨max_eq_clamp, categorize_eq_spec, assess_music⟩

/-- C6 witness: the clamp identity at ratio point (1, 2) and the
`"[Music]"`-floor scenario at one repetition. -/
theorem quality_clamp_witness :
    max 0 (100 - (1 : ℚ) * 100 - 2 * 50) =
      clamp 0 100 (100 - (1 : ℚ) * 100 - 2 * 50) ∧
    (∃ r : QualityResult,
      assess_content_quality (joinSp (List.replicate 1 "[Music]".data))
        (List.replicate 1 ⟨.missing, "[Music]"⟩) = .ok r ∧
      r.quality_score = 0 ∧ r.quality_category = "Very Poor") :=
  ⟨quality_clamp_bands_and_music_floor.1 1 2 (by norm_num) (by norm_num),
    quality_clamp_bands_and_music_floor.2.2 0⟩

theorem save_video_effects {db : DB} {u : Nat} {vid : String} {vi : InfoDict}
    {sd : Option StructuredIn} {now : Int} {db1 : DB} {v : VideoRow}
    (h : save_video_to_db db u vid vi sd now = .ok (db1, v)) :
    db1.chapters = db.chapters ∧ db1.segments = db.segments ∧
    db1.assets = db.assets ∧ db1.seq = db.seq ∧
    v.video_id = vid ∧ v.user = u ∧ v ∈ db1.videos := by
  simp only [save_video_to_db, bind, Except.bind] at h
  split at h
  · cases h
  · split at h
    · cases h
    · split at h
      · next r hfind =>
        simp only [Except.ok.injEq, Prod.mk.injEq] at h
        obtain ⟨hdb, hv⟩ := h
        have hpred := List.find?_some hfind
        simp only [decide_eq_true_eq] at hpred
        have hmem := List.mem_of_find?_eq_some hfind
        subst hdb
        subst hv
        refine ⟨rfl, rfl, rfl, rfl, hpred.1, hpred.2, ?_⟩
        refine List.mem_map.mpr ⟨r, hmem, ?_⟩
        rw [if_pos hpred]
      · split at h
        · cases h
        · simp only [Except.ok.injEq, Prod.mk.injEq] at h
          obtain ⟨hdb, hv⟩ := h
          subst hdb
          subst hv
          exact ⟨rfl, rfl, rfl, rfl, rfl, rfl, List.mem_append_right _ (by simp)⟩

theorem save_chapters_effects (db : DB) (vid : String) (chs : List ChapterIn) :
    (save_chapters_to_db db vid chs).videos = db.videos ∧
    (save_chapters_to_db db vid chs).segments = db.segments ∧
    (save_chapters_to_db db vid chs).assets = db.assets ∧
    (chs ≠ [] → chaptersOf (save_chapters_to_db db vid chs) vid =
      chs.enum.map fun p => chapterRowOf vid (db.seq + p.1) p.2) := by
  unfold save_chapters_to_db
  split
  · next hc => exact ⟨rfl, rfl, rfl, fun hne => absurd hc hne⟩
  · refine ⟨rfl, rfl, rfl, fun _ => ?_⟩
    unfold chaptersOf
    simp only [List.filter_append]
    have h1 : (db.chapters.filter fun c => ¬ c.video_id = vid).filter
        (fun c => c.video_id = vid) = [] := by
      rw [List.filter_filter]
      apply List.filter_eq_nil_iff.mpr
      intro a _
      simp
    have h2 : ((chs.enum.map fun p => chapterRowOf vid (db.seq + p.1) p.2).filter
        fun c => c.video_id = vid) =
        chs.enum.map fun p => chapterRowOf vid (db.seq + p.1) p.2 := by
      apply List.filter_eq_self.mpr
      intro c hc
      obtain ⟨p, -, hp⟩ := List.mem_map.mp hc
      subst hp
      simp [chapterRowOf]
    rw [h1, h2, List.nil_append]

theorem segRowOf_props {vid source : String} {ig : Option Bool} {s : SegIn}
    {r : SegRow} (h : segRowOf vid source ig s = some r) :
    r.video_id = vid ∧ r.id = 0 := by
  cases s with
  | str t => cases h
  | dict d =>
    simp only [segRowOf] at h
    split at h
    · cases h
    · simp only [Option.some.injEq] at h
      subst h
      exact ⟨rfl, rfl⟩

theorem save_segments_effects (db : DB) (vid : String) (segs : List SegIn)
    (source : String) (ig : Option Bool) :
    (save_segments_to_db db vid segs source ig).videos = db.videos ∧
    (save_segments_to_db db vid segs source ig).chapters = db.chapters ∧
    (save_segments_to_db db vid segs source ig).assets = db.assets ∧
    (segs ≠ [] → (segmentsOf (save_segments_to_db db vid segs source ig) vid).map
        (fun r => { r with id := 0 }) =
      segs.filterMap (segRowOf vid source ig)) := by
  unfold save_segments_to_db
  split
  · next hc => exact ⟨rfl, rfl, rfl, fun hne => absurd hc hne⟩
  · refine ⟨rfl, rfl, rfl, fun _ => ?_⟩
    unfold segmentsOf
    simp only [List.filter_append]
    have h1 : (db.segments.filter fun c => ¬ c.video_id = vid).filter
        (fun c => c.video_id = vid) = [] := by
      rw [List.filter_filter]
      apply List.filter_eq_nil_iff.mpr
      intro a _
      simp
    have h2 : (((segs.filterMap (segRowOf vid source ig)).enum.map
          fun p => { p.2 with id := db.seq + p.1 }).filter
        fun c => c.video_id = vid) =
        (segs.filterMap (segRowOf vid source ig)).enum.map
          fun p => { p.2 with id := db.seq + p.1 } := by
      apply List.filter_eq_self.mpr
      intro c hc
      obtain ⟨p, hpmem, hp⟩ := List.mem_map.mp hc
      subst hp
      have : p.2 ∈ segs.filterMap (segRowOf vid source ig) := by
        have := List.enum_map_snd (segs.filterMap (segRowOf vid source ig))
        exact this ▸ List.mem_map_of_mem Prod.snd hpmem
      obtain ⟨x, -, hx⟩ := List.mem_filterMap.mp this
      have := (segRowOf_props hx).1
      simp [this]
    rw [h1, h2, List.nil_append]
    rw [List.map_map]
    have h3 : ((segs.filterMap (segRowOf vid source ig)).enum.map
        ((fun r => { r with id := 0 }) ∘ fun p => { p.2 with id := db.seq + p.1 })) =
        (segs.filterMap (segRowOf vid source ig)).enum.map fun p => p.2 := by
      apply List.map_congr_left
      intro p hpmem
      have : p.2 ∈ segs.filterMap (segRowOf vid source ig) := by
        have := List.enum_map_snd (segs.filterMap (segRowOf vid source ig))
        exact this ▸ List.mem_map_of_mem Prod.snd hpmem
      obtain ⟨x, -, hx⟩ := List.mem_filterMap.mp this
      have hid := (segRowOf_props hx).2
      obtain ⟨i, r⟩ := p
      obtain ⟨rid, rv, rst, rd, rt, rg, rs, rh, re⟩ := r
      simp only [Function.comp]
      simp at hid
      rw [hid]
    rw [h3]
    have h4 := List.enum_map_snd (segs.filterMap (segRowOf vid source ig))
    exact h4

theorem upsert_text_videos (d : DB) (vid k c : String) :
    (upsert_asset_text d vid k c).videos = d.videos := by
  unfold upsert_asset_text; split <;> rfl

theorem upsert_text_chapters (d : DB) (vid k c : String) :
    (upsert_asset_text d vid k c).chapters = d.chapters := by
  unfold upsert_asset_text; split <;> rfl

theorem upsert_text_segments (d : DB) (vid k c : String) :
    (upsert_asset_text d vid k c).segments = d.segments := by
  unfold upsert_asset_text; split <;> rfl

theorem upsert_text_seq (d : DB) (vid k c : String) :
    (upsert_asset_text d vid k c).seq = d.seq := by
  unfold upsert_asset_text; split <;> rfl

theorem upsert_json_videos (d : DB) (vid k : String) (c : StructuredIn) :
    (upsert_asset_json d vid k c).videos = d.videos := by
  unfold upsert_asset_json; split <;> rfl

theorem upsert_json_chapters (d : DB) (vid k : String) (c : StructuredIn) :
    (upsert_asset_json d vid k c).chapters = d.chapters := by
  unfold upsert_asset_json; split <;> rfl

theorem upsert_json_segments (d : DB) (vid k : String) (c : StructuredIn) :
    (upsert_asset_json d vid k c).segments = d.segments := by
  unfold upsert_asset_json; split <;> rfl

theorem upsert_json_seq (d : DB) (vid k : String) (c : StructuredIn) :
    (upsert_asset_json d vid k c).seq = d.seq := by
  unfold upsert_asset_json; split <;> rfl

theorem save_raw_assets_tables (db : DB) (vid : String)
    (ct tt : Option String) (sj : Option StructuredIn) :
    (save_raw_assets_to_db db vid ct tt sj).videos = db.videos ∧
    (save_raw_assets_to_db db vid ct tt sj).chapters = db.chapters ∧
    (save_raw_assets_to_db db vid ct tt sj).segments = db.segments ∧
    (save_raw_assets_to_db db vid ct tt sj).seq = db.seq := by
  unfold save_raw_assets_to_db
  rcases ct with _ | s1 <;> rcases tt with _ | s2 <;> rcases sj with _ | j <;>
    dsimp only <;> (try split_ifs) <;>
    simp only [upsert_text_videos, upsert_text_chapters, upsert_text_segments,
      upsert_text_seq, upsert_json_videos, upsert_json_chapters,
      upsert_json_segments, upsert_json_seq, and_self]

theorem upsert_text_mem (db : DB) (vid kind content : String) :
    ∃ r ∈ (upsert_asset_text db vid kind content).assets,
      r.video_id = vid ∧ r.kind = kind ∧ r.content_text = some content := by
  unfold upsert_asset_text
  split
  · next hany =>
    obtain ⟨a, ha, hpa⟩ := List.any_eq_true.mp hany
    simp only [decide_eq_true_eq] at hpa
    refine ⟨{ a with content_text := some content }, ?_, hpa.1, hpa.2, rfl⟩
    exact List.mem_map.mpr ⟨a, ha, by rw [if_pos hpa]⟩
  · exact ⟨⟨vid, kind, some content, none⟩,
      List.mem_append_right _ (by simp), rfl, rfl, rfl⟩

theorem upsert_text_keep {db : DB} {vid kind content : String} {r : AssetRow}
    (hr : r ∈ db.assets) (hne : ¬(r.video_id = vid ∧ r.kind = kind)) :
    r ∈ (upsert_asset_text db vid kind content).assets := by
  unfold upsert_asset_text
  split
  · exact List.mem_map.mpr ⟨r, hr, by rw [if_neg hne]⟩
  · exact List.mem_append_left _ hr

theorem upsert_json_keep {db : DB} {vid kind : String} {content : StructuredIn}
    {r : AssetRow}
    (hr : r ∈ db.assets) (hne : ¬(r.video_id = vid ∧ r.kind = kind)) :
    r ∈ (upsert_asset_json db vid kind content).assets := by
  unfold upsert_asset_json
  split
  · exact List.mem_map.mpr ⟨r, hr, by rw [if_neg hne]⟩
  · exact List.mem_append_left _ hr

theorem save_raw_assets_clean (db : DB) (vid s : String)
    (tt : Option String) (sj : Option StructuredIn) (hs : ¬ s = "") :
    ∃ r ∈ (save_raw_assets_to_db db vid (some s) tt sj).assets,
      r.video_id = vid ∧ r.kind = "clean_text" ∧ r.content_text = some s := by
  obtain ⟨r, hr, h1, h2, h3⟩ := upsert_text_mem db vid "clean_text" s
  have keep2 : ∀ d : DB, r ∈ d.assets → ∀ c,
      r ∈ (upsert_asset_text d vid "timestamped" c).assets := by
    intro d hd c
    refine upsert_text_keep hd ?_
    rintro ⟨-, hk⟩
    rw [h2] at hk
    exact absurd hk (by decide)
  have keep3 : ∀ d : DB, r ∈ d.assets → ∀ c,
      r ∈ (upsert_asset_json d vid "structured_json" c).assets := by
    intro d hd c
    refine upsert_json_keep hd ?_
    rintro ⟨-, hk⟩
    rw [h2] at hk
    exact absurd hk (by decide)
  unfold save_raw_assets_to_db
  rcases tt with _ | s2 <;> rcases sj with _ | j <;> dsimp only <;>
    rw [if_neg hs]
  · exact ⟨r, hr, h1, h2, h3⟩
  · exact ⟨r, keep3 _ hr j, h1, h2, h3⟩
  · split_ifs
    · exact ⟨r, hr, h1, h2, h3⟩
    · exact ⟨r, keep2 _ hr s2, h1, h2, h3⟩
  · split_ifs
    · exact ⟨r, keep3 _ hr j, h1, h2, h3⟩
    · exact ⟨r, keep3 _ (keep2 _ hr s2) j, h1, h2, h3⟩

theorem save_transcript_unfold (db : DB) (a : SaveArgs) (now : Int) :
    save_transcript_to_db db a now =
      match save_video_to_db db a.user a.video_id a.video_info
          a.structured_data now with
      | .ok (db1, video) =>
          .ok (save_raw_assets_to_db
            (segStage (chapStage db1 video.video_id a.chapters)
              video.video_id a.segments a.source a.is_generated)
            video.video_id a.clean_text a.timestamped_text a.structured_data,
            video)
      | .error e => .error e := by
  unfold save_transcript_to_db
  cases h : save_video_to_db db a.user a.video_id a.video_info
      a.structured_data now with
  | error e => rfl
  | ok p => obtain ⟨db1, video⟩ := p; rfl

theorem chapStage_tables (db : DB) (vid : String) (o : Option (List ChapterIn)) :
    (chapStage db vid o).videos = db.videos ∧
    (chapStage db vid o).segments = db.segments ∧
    (chapStage db vid o).assets = db.assets := by
  unfold chapStage
  rcases o with _ | chs
  · exact ⟨rfl, rfl, rfl⟩
  · dsimp only
    split_ifs
    · exact ⟨rfl, rfl, rfl⟩
    · obtain ⟨h1, h2, h3, -⟩ := save_chapters_effects db vid chs
      exact ⟨h1, h2, h3⟩

theorem chapStage_none {db : DB} {vid : String} {o : Option (List ChapterIn)}
    (h : o = none ∨ o = some []) : chapStage db vid o = db := by
  rcases h with h | h <;> subst h <;> rfl

theorem chapStage_some {db : DB} {vid : String} {o : Option (List ChapterIn)}
    {chs : List ChapterIn} (h : o = some chs) (hne : chs ≠ []) :
    chaptersOf (chapStage db vid o) vid =
      chs.enum.map fun p => chapterRowOf vid (db.seq + p.1) p.2 := by
  subst h
  unfold chapStage
  dsimp only
  rw [if_neg hne]
  exact (save_chapters_effects db vid chs).2.2.2 hne

theorem segStage_tables (db : DB) (vid : String) (o : Option (List SegIn))
    (src : String) (ig : Option Bool) :
    (segStage db vid o src ig).videos = db.videos ∧
    (segStage db vid o src ig).chapters = db.chapters ∧
    (segStage db vid o src ig).assets = db.assets := by
  unfold segStage
  rcases o with _ | segs
  · exact ⟨rfl, rfl, rfl⟩
  · dsimp only
    split_ifs
    · exact ⟨rfl, rfl, rfl⟩
    · obtain ⟨h1, h2, h3, -⟩ := save_segments_effects db vid segs src ig
      exact ⟨h1, h2, h3⟩

theorem segStage_none {db : DB} {vid : String} {o : Option (List SegIn)}
    {src : String} {ig : Option Bool}
    (h : o = none ∨ o = some []) : segStage db vid o src ig = db := by
  rcases h with h | h <;> subst h <;> rfl

theorem segStage_some {db : DB} {vid : String} {o : Option (List SegIn)}
    {segs : List SegIn} {src : String} {ig : Option Bool}
    (h : o = some segs) (hne : segs ≠ []) :
    (segmentsOf (segStage db vid o src ig) vid).map (fun r => { r with id := 0 }) =
      segs.filterMap (segRowOf vid src ig) := by
  subst h
  unfold segStage
  dsimp only
  rw [if_neg hne]
  exact (save_segments_effects db vid segs src ig).2.2.2 hne

theorem save_transcript_effects {db : DB} {a : SaveArgs} {now : Int}
    {dbf : DB} {v : VideoRow}
    (h : save_transcript_to_db db a now = .ok (dbf, v)) :
    v.video_id = a.video_id ∧ v.user = a.user ∧ v ∈ dbf.videos ∧
    (∀ chs, a.chapters = some chs → chs ≠ [] →
      chaptersOf dbf a.video_id =
        chs.enum.map fun p => chapterRowOf a.video_id (db.seq + p.1) p.2) ∧
    ((a.chapters = none ∨ a.chapters = some []) →
      chaptersOf dbf a.video_id = chaptersOf db a.video_id) ∧
    (∀ segs, a.segments = some segs → segs ≠ [] →
      (segmentsOf dbf a.video_id).map (fun r => { r with id := 0 }) =
        segs.filterMap (segRowOf a.video_id a.source a.is_generated)) ∧
    ((a.segments = none ∨ a.segments = some []) →
      segmentsOf dbf a.video_id = segmentsOf db a.video_id) ∧
    (∀ s, a.clean_text = some s → ¬ s = "" →
      ∃ r ∈ dbf.assets, r.video_id = a.video_id ∧ r.kind = "clean_text" ∧
        r.content_text = some s) := by
  rw [save_transcript_unfold] at h
  split at h
  · next db1 video hsv =>
    obtain ⟨hch, hseg, hass, hseq, hvid, huser, hmem⟩ := save_video_effects hsv
    simp only [Except.ok.injEq, Prod.mk.injEq] at h
    obtain ⟨hdbf, hv⟩ := h
    subst hv
    subst hdbf
    rw [hvid] at *
    obtain ⟨hrv, hrc, hrs, hrq⟩ := save_raw_assets_tables
      (segStage (chapStage db1 a.video_id a.chapters) a.video_id a.segments
        a.source a.is_generated) a.video_id a.clean_text a.timestamped_text
      a.structured_data
    obtain ⟨hsv2, hsc2, hsa2⟩ := segStage_tables
      (chapStage db1 a.video_id a.chapters) a.video_id a.segments
      a.source a.is_generated
    obtain ⟨hcv2, hcs2, hca2⟩ := chapStage_tables db1 a.video_id a.chapters
    refine ⟨rfl, huser, ?_, ?_, ?_, ?_, ?_, ?_⟩
    · rw [hrv, hsv2, hcv2]; exact hmem
    · intro chs hc hne
      unfold chaptersOf
      rw [hrc, hsc2]
      have := @chapStage_some db1 a.video_id a.chapters chs hc hne
      unfold chaptersOf at this
      rw [this, hseq]
    · intro hnone
      unfold chaptersOf
      rw [hrc, hsc2, chapStage_none hnone, hch]
    · intro segs hs hne
      unfold segmentsOf
      rw [hrs]
      have := @segStage_some (chapStage db1 a.video_id a.chapters) a.video_id
        a.segments segs a.source a.is_generated hs hne
      unfold segmentsOf at this
      rw [this]
    · intro hnone
      unfold segmentsOf
      rw [hrs, segStage_none hnone, hcs2, hseg]
    · intro s hsome hsne
      rw [hsome]
      exact save_raw_assets_clean _ a.video_id s a.timestamped_text
        a.structured_data hsne
  · cases h

theorem run_okE {db : DB} {a : SaveArgs} {now : Int} {v : VideoRow}
    (h : (save_transcript_run db a now).2 = .ok v) :
    save_transcript_to_db db a now = .ok ((save_transcript_run db a now).1, v) := by
  revert h
  unfold save_transcript_run
  split
  · next db' v' heq =>
    dsimp only
    intro h
    injection h with h
    subst h
    exact heq
  · intro h
    simp at h

theorem save_video_ok_owner {db : DB} {u : Nat} {vid : String} {vi : InfoDict}
    {sd : Option StructuredIn} {now : Int} {p : DB × VideoRow}
    (h : save_video_to_db db u vid vi sd now = .ok p) :
    (∃ x ∈ db.videos, x.video_id = vid ∧ x.user = u) ∨
    (∀ x ∈ db.videos, ¬ x.video_id = vid) := by
  simp only [save_video_to_db, bind, Except.bind] at h
  split at h
  · cases h
  · split at h
    · cases h
    · split at h
      · next x hfind =>
        have hpred := List.find?_some hfind
        simp only [decide_eq_true_eq] at hpred
        exact Or.inl ⟨x, List.mem_of_find?_eq_some hfind, hpred⟩
      · split at h
        · cases h
        · next hany =>
          refine Or.inr fun x hx hvid => ?_
          exact hany (List.any_eq_true.mpr ⟨x, hx, by simp [hvid]⟩)

/-- C1: the transaction wrapper is atomic: an error leaves the store
exactly as it was; success commits the video row, the chapter rows and
the clean-text asset together in the returned state. -/
theorem save_transcript_atomic (db : DB) (a : SaveArgs) (now : Int) :
    (∀ e, (save_transcript_run db a now).2 = .error e →
      (save_transcript_run db a now).1 = db) ∧
    (∀ v, (save_transcript_run db a now).2 = .ok v →
      v.video_id = a.video_id ∧ v.user = a.user ∧
      v ∈ (save_transcript_run db a now).1.videos ∧
      (∀ chs, a.chapters = some chs → chs ≠ [] →
        chaptersOf (save_transcript_run db a now).1 a.video_id =
          chs.enum.map fun p => chapterRowOf a.video_id (db.seq + p.1) p.2) ∧
      (∀ s, a.clean_text = some s → ¬ s = "" →
        ∃ r ∈ (save_transcript_run db a now).1.assets,
          r.video_id = a.video_id ∧ r.kind = "clean_text" ∧
          r.content_text = some s)) := by
  constructor
  · intro e he
    revert he
    unfold save_transcript_run
    split
    · intro h
      simp at h
    · intro _
      rfl
  · intro v hv
    have he := save_transcript_effects (run_okE hv)
    exact ⟨he.1, he.2.1, he.2.2.1, he.2.2.2.1, he.2.2.2.2.2.2.2⟩

/-- C2 (amended): replacement of the chapter and segment sets happens
exactly when the supplied list is non-empty; an empty or absent list
leaves the previously stored rows untouched. -/
theorem save_transcript_replacement (db : DB) (a : SaveArgs) (now : Int)
    (v : VideoRow) (h : (save_transcript_run db a now).2 = .ok v) :
    (∀ chs, a.chapters = some chs → chs ≠ [] →
      chaptersOf (save_transcript_run db a now).1 a.video_id =
        chs.enum.map fun p => chapterRowOf a.video_id (db.seq + p.1) p.2) ∧
    ((a.chapters = none ∨ a.chapters = some []) →
      chaptersOf (save_transcript_run db a now).1 a.video_id =
        chaptersOf db a.video_id) ∧
    (∀ segs, a.segments = some segs → segs ≠ [] →
      (segmentsOf (save_transcript_run db a now).1 a.video_id).map
          (fun r => { r with id := 0 }) =
        segs.filterMap (segRowOf a.video_id a.source a.is_generated)) ∧
    ((a.segments = none ∨ a.segments = some []) →
      segmentsOf (save_transcript_run db a now).1 a.video_id =
        segmentsOf db a.video_id) := by
  have he := save_transcript_effects (run_okE h)
  exact ⟨he.2.2.2.1, he.2.2.2.2.1, he.2.2.2.2.2.1, he.2.2.2.2.2.2.1⟩

/-- C9: once a video id is stored for one owner, a save of the same id
by any other owner raises IntegrityError and changes nothing. -/
theorem video_pk_conflict (db : DB) (a : SaveArgs) (now : Int) (r : VideoRow)
    (hr : r ∈ db.videos) (hid : r.video_id = a.video_id)
    (hu : r.user ≠ a.user)
    (hall : ∀ x ∈ db.videos, x.video_id = a.video_id → x.user = r.user) :
    ∃ e, (save_transcript_run db a now).2 = .error e ∧
      (save_transcript_run db a now).1 = db := by
  cases hres : save_video_to_db db a.user a.video_id a.video_info
      a.structured_data now with
  | ok p =>
    rcases save_video_ok_owner hres with ⟨x, hx, hxv, hxu⟩ | hnone
    · exact absurd ((hall x hx hxv).symm.trans hxu) hu
    · exact absurd hid (hnone r hr)
  | error e =>
    have hst : save_transcript_to_db db a now = .error e := by
      rw [save_transcript_unfold, hres]
    exact ⟨e, by unfold save_transcript_run; rw [hst],
      by unfold save_transcript_run; rw [hst]⟩

theorem save_transcript_atomic_witness :
    rowNew ∈ (save_transcript_run dbEmpty argsFull 0).1.videos ∧
    ∃ r ∈ (save_transcript_run dbEmpty argsFull 0).1.assets,
      r.video_id = "v1" ∧ r.kind = "clean_text" ∧
      r.content_text = some "hello world" := by
  have h := (save_transcript_atomic dbEmpty argsFull 0).2 rowNew (by rfl)
  exact ⟨h.2.2.1, h.2.2.2.2 "hello world" rfl (by decide)⟩

theorem save_transcript_replacement_witness :
    chaptersOf (save_transcript_run dbEmpty argsFull 0).1 "v1" =
      [chFix].enum.map (fun p => chapterRowOf "v1" (dbEmpty.seq + p.1) p.2) ∧
    segmentsOf (save_transcript_run dbEmpty argsFull 0).1 "v1" =
      segmentsOf dbEmpty "v1" := by
  have h := save_transcript_replacement dbEmpty argsFull 0 rowNew (by rfl)
  exact ⟨h.1 [chFix] rfl (by simp), h.2.2.2 (Or.inl rfl)⟩

/-- C2 counterexample: a reprocessing call supplying the empty chapter
list succeeds but leaves the previously stored chapter row in place, so
the stored set does not equal the supplied (empty) set. -/
theorem save_transcript_empty_list_keeps_rows :
    argsEmptyCh.chapters = some [] ∧
    (save_transcript_run dbFix argsEmptyCh 0).2 = .ok vidOwner1u ∧
    chaptersOf (save_transcript_run dbFix argsEmptyCh 0).1 "v1" = [chRow1] := by
  refine ⟨rfl, ?_, ?_⟩ <;> rfl

theorem video_pk_conflict_witness :
    ∃ e, (save_transcript_run dbOwned argsOther 0).2 = .error e ∧
      (save_transcript_run dbOwned argsOther 0).1 = dbOwned :=
  video_pk_conflict dbOwned argsOther 0 vidOwner1 (by simp [dbOwned]) rfl
    (by decide) (by decide)

/-- C10: a query that is empty after stripping always produces an
envelope with search_type "none" and the empty filters_applied dict,
whatever filters were passed and actually applied. -/
theorem search_empty_query_reports_none (db : DB) (user : Option Nat)
    (ft : String → String → Bool) (query stype : String)
    (vf : Option VideoFilters) (tr : Option (ℚ × ℚ)) (lang : Option String)
    (ig : Option Bool) (sb : String) (page : Int) (ps : Nat)
    (hq : pyStripS query = "") :
    (search_transcripts db user ft query stype vf tr lang ig sb page
      ps).search_type = "none" ∧
    (search_transcripts db user ft query stype vf tr lang ig sb page
      ps).filters_applied = .empty := by
  unfold search_transcripts
  simp only [hq]
  exact ⟨rfl, rfl⟩

theorem search_empty_query_reports_none_witness :
    (search_transcripts dbOwned none (fun _ _ => false) "  " "exact"
      (some { title := some "x" }) none (some "en") (some true) "relevance"
      1 20).search_type = "none" ∧
    (search_transcripts dbOwned none (fun _ _ => false) "  " "exact"
      (some { title := some "x" }) none (some "en") (some true) "relevance"
      1 20).filters_applied = .empty :=
  search_empty_query_reports_none dbOwned none (fun _ _ => false) "  "
    "exact" (some { title := some "x" }) none (some "en") (some true)
    "relevance" 1 20 (by rfl)

theorem findSubF_some_contains {p : List Char} :
    ∀ {s : List Char} {n i : Nat}, findSubF p n s = some i →
      containsSub p s = true := by
  intro s
  induction s with
  | nil =>
    intro n i h
    cases n with
    | zero => cases h
    | succ m =>
      unfold findSubF at h
      split at h
      · simp only [containsSub]
        next hp => simp [hp]
      · cases h
  | cons c cs ih =>
    intro n i h
    cases n with
    | zero => cases h
    | succ m =>
      unfold findSubF at h
      split at h
      · next hp => simp [containsSub, hp]
      · next hp =>
        simp only [Option.map_eq_some'] at h
        obtain ⟨j, hj, -⟩ := h
        simp [containsSub, ih hj]

theorem findSub_some_contains {p s : List Char} {i : Nat}
    (h : findSub p s = some i) : containsSub p s = true :=
  findSubF_some_contains h

theorem apply_sorting_singleton (v : VideoRow) (sb q : String) :
    apply_sorting [v] sb q = [v] := by
  unfold apply_sorting sortByLt insertByLt
  split_ifs <;> rfl


theorem filter_any_singleton {v : VideoRow} {ids : List String}
    (h : ids.any (fun i => i = v.video_id) = true) :
    ([v].filter fun w => ids.any fun i => i = w.video_id) = [v] := by
  simp [List.filter, h]

theorem search_in_raw_assets_eq (db : DB) (l : List VideoRow) (q st : String) :
    search_in_raw_assets db l q st =
      l.filter fun v =>
        (((db.assets.filter fun a =>
            (l.any fun w => w.video_id = a.video_id) &&
            (a.kind = "clean_text" || a.kind = "timestamped")).filter fun a =>
              match a.content_text with
              | some t => containsCI t q
              | none => false).map fun a => a.video_id).any
          fun i => i = v.video_id := by
  unfold search_in_raw_assets
  split_ifs <;> rfl

/-- C8 (amended): raw-asset fallback mock segment. -/
theorem search_raw_asset_fallback_mock (db : DB) (v : VideoRow)
    (query : String) (ft : String → String → Bool)
    (asset : AssetRow) (content : String) (pos : Nat)
    (hv : db.videos = [v]) (hs : db.segments = [])
    (hhead : (db.assets.filter fun a => a.video_id = v.video_id ∧
      a.kind = "clean_text").head? = some asset)
    (hct : asset.content_text = some content)
    (hq : ¬ pyStripS query = "")
    (hfind : findSub (lowerL query.data) (lowerL content.data) = some pos) :
    (search_transcripts db none ft query "exact" none none none none
      "relevance" 1 20).results.map (fun e => e.matching_segments) =
      [[{ id := 0, start_time_s := 0, duration_s := 3,
          text := String.mk ((content.data.drop (pos - 100)).take
            (min content.data.length (pos + query.data.length + 100) -
              (pos - 100))),
          is_generated := v.is_generated, source := "raw_asset" }]] ∧
    (search_transcripts db none ft query "exact" none none none none
      "relevance" 1 20).total_count = 1 := by
  have hqne : ¬ query = "" := fun h => hq (by rw [h]; rfl)
  have hlq : lowerL query.data ≠ [] := by
    intro h
    apply hqne
    have hlen := congrArg List.length h
    simp only [lowerL, List.length_map, List.length_nil] at hlen
    cases query with
    | mk l => cases l with
      | nil => rfl
      | cons c cs => cases hlen
  have hcne : ¬ content = "" := by
    intro h
    subst h
    rw [show lowerL ("".data) = [] from rfl] at hfind
    unfold findSub findSubF at hfind
    rw [if_neg hlq] at hfind
    cases hfind
  have hcont : containsCI content query = true := by
    unfold containsCI
    exact findSub_some_contains hfind
  have hmemf := List.mem_of_mem_head? hhead
  obtain ⟨hma, hpa⟩ := List.mem_filter.mp hmemf
  simp only [decide_eq_true_eq] at hpa
  have hmock : create_mock_segments db v query =
      [{ id := 0, start_time_s := 0, duration_s := 3,
         text := String.mk ((content.data.drop (pos - 100)).take
           (min content.data.length (pos + query.data.length + 100) -
             (pos - 100))),
         is_generated := v.is_generated, source := "raw_asset" }] := by
    unfold create_mock_segments
    rw [hhead]
    dsimp only
    rw [hct]
    dsimp only
    rw [if_neg hcne, hfind]
  have hraw : search_in_raw_assets db [v] query "exact" = [v] := by
    rw [search_in_raw_assets_eq]
    apply filter_any_singleton
    apply List.any_eq_true.mpr
    refine ⟨asset.video_id, List.mem_map_of_mem _ ?_, by simp [hpa.1]⟩
    apply List.mem_filter.mpr
    refine ⟨List.mem_filter.mpr ⟨hma, ?_⟩, ?_⟩
    · simp [hpa.1, hpa.2]
    · rw [hct]
      exact hcont
  have henv : search_transcripts db none ft query "exact" none none none
      none "relevance" 1 20 =
      { results := [
          { video := v,
            chapters_count := (chaptersOf db v.video_id).length,
            segments_count := (segmentsOf db v.video_id).length,
            matching_segments := [
              { id := 0, start_time_s := 0, duration_s := 3,
                text := String.mk ((content.data.drop (pos - 100)).take
                  (min content.data.length (pos + query.data.length + 100) -
                    (pos - 100))),
                is_generated := v.is_generated, source := "raw_asset" }],
            total_segments := 1,
            relevance_score := relevance_score v query }],
        total_count := 1, page := 1, page_size := 20, total_pages := 1,
        has_next := false, has_previous := false, query := query,
        search_type := "exact",
        filters_applied := .applied {} none none none } := by
    unfold search_transcripts base_queryset
    simp only [hs, hv, hq, List.filter_nil, List.map_nil, ite_false,
      eq_self_iff_true, not_false_iff, and_true, true_and, and_self,
      ite_true, ite_self, sortByLt, List.length_nil, hraw,
      apply_sorting_singleton, List.length_singleton,
      show numPages 1 20 = 1 from rfl, show pageClamp 1 1 = 1 from rfl,
      show pageSlice [v] 1 20 = [v] from rfl, List.map_cons, hmock,
      List.nil_append]
    rfl
  rw [henv]
  exact ⟨rfl, rfl⟩


/-- C8 counterexample: the synthesized mock segment's duration field is
the placeholder 3.0, not zero, so the mock's time fields are not all
placeholder zero values. -/
theorem search_mock_duration_not_zero :
    (search_transcripts dbAsset none (fun _ _ => false) "world" "exact" none
      none none none "relevance" 1 20).results.map
        (fun e => e.matching_segments) =
      [[{ id := 0, start_time_s := 0, duration_s := 3, text := "hello world",
          is_generated := none, source := "raw_asset" }]] ∧
    ¬ (3 : ℚ) = 0 :=
  ⟨rfl, by norm_num⟩

theorem search_raw_asset_fallback_mock_witness :
    (search_transcripts dbAsset none (fun _ _ => false) "world" "exact" none
      none none none "relevance" 1 20).total_count = 1 :=
  (search_raw_asset_fallback_mock dbAsset vidOwner1 "world" (fun _ _ => false)
    assetFix "hello world" 6 rfl rfl rfl rfl (by decide) rfl).2

end YtDl
